import Mathlib

/-!
# rocketmq-client-go: benchmark statistics and ordered dispatch

A shallow embedding of `benchmark/producer.go` (the statistics ring buffer, the
windowed report, the success branch of the send loop and the start-up
validation) and of `examples/orderproducer/producer.go` (the shared countdown
and the start-up validation), followed by the properties proved about them.

Conventions of the embedding:
* an `int64` / `int` value is an `Int`; every machine addition or subtraction
  goes through `wrap64`;
* a pointer to a `statiBenchmarkProducerSnapshot` is an index into an
  append-only list of allocated nodes (`new` returns the next free index),
  `nil` is `none`;
* a `time.Time` is the reading of the monotonic clock, in nanoseconds;
* a `float64` is a value of the binary64 grid, an infinity or a NaN, and its
  operations round to nearest, ties to even;
* goroutines are interleaved at the granularity of the `sync/atomic`
  operations: a schedule is the list of worker indices that move next.
-/

namespace Benchmark

/-- Two's-complement wrap of an integer into the `int64` range. -/
def wrap64 (x : Int) : Int := (x + 2 ^ 63) % 2 ^ 64 - 2 ^ 63

/-- The struct `statiBenchmarkProducerSnapshot` of `benchmark/producer.go`. -/
structure statiBenchmarkProducerSnapshot where
  sendRequestSuccessCount : Int
  sendRequestFailedCount : Int
  receiveResponseSuccessCount : Int
  receiveResponseFailedCount : Int
  sendMessageSuccessTimeTotal : Int
  sendMessageMaxRT : Int
  createdAt : Int
  next : Option Nat
deriving DecidableEq

/-- The zero value `statiBenchmarkProducerSnapshot{}`. -/
def zeroStati : statiBenchmarkProducerSnapshot :=
  { sendRequestSuccessCount := 0, sendRequestFailedCount := 0,
    receiveResponseSuccessCount := 0, receiveResponseFailedCount := 0,
    sendMessageSuccessTimeTotal := 0, sendMessageMaxRT := 0,
    createdAt := 0, next := none }

/-- The struct `snapshots`: `head`, `tail` and `len` as in the source, `cur`
holds the current value of the live counters `cur` points to, and `heap` is the
store of the snapshot nodes allocated so far. -/
structure snapshots where
  head : Option Nat
  tail : Option Nat
  cur : statiBenchmarkProducerSnapshot
  len : Int
  heap : List statiBenchmarkProducerSnapshot
deriving DecidableEq

/-- The value `snapshots{cur: &stati}` built in `producer.run`. -/
def emptySnapshots (stati : statiBenchmarkProducerSnapshot) : snapshots :=
  { head := none, tail := none, cur := stati, len := 0, heap := [] }

/-- The assignment `p.next = v` in the store. -/
def setNext (heap : List statiBenchmarkProducerSnapshot) (p : Nat) (v : Option Nat) :
    List statiBenchmarkProducerSnapshot :=
  match heap[p]? with
  | some nd => heap.set p { nd with next := v }
  | none => heap

/-- The read `p.next` in the store. -/
def nextOf (heap : List statiBenchmarkProducerSnapshot) (p : Nat) : Option Nat :=
  (heap[p]?).bind (fun nd => nd.next)

/-- The method `snapshots.takeSnapshot`; `now` is the value of `time.Now()`. -/
def takeSnapshot (s : snapshots) (now : Int) : snapshots :=
  let b := s.cur
  let sn : statiBenchmarkProducerSnapshot :=
    { sendRequestSuccessCount := b.sendRequestSuccessCount,
      sendRequestFailedCount := b.sendRequestFailedCount,
      receiveResponseSuccessCount := b.receiveResponseSuccessCount,
      receiveResponseFailedCount := b.receiveResponseFailedCount,
      sendMessageSuccessTimeTotal := b.sendMessageSuccessTimeTotal,
      sendMessageMaxRT := b.sendMessageMaxRT,
      createdAt := now, next := none }
  let a := s.heap.length
  let heap1 := s.heap ++ [sn]
  let heap2 := match s.tail with
    | some t => setNext heap1 t (some a)
    | none => heap1
  let h := match s.head with
    | some h => h
    | none => a
  let len1 := wrap64 (s.len + 1)
  if len1 > 10 then
    { s with heap := heap2, tail := some a, head := nextOf heap2 h, len := wrap64 (len1 - 1) }
  else
    { s with heap := heap2, tail := some a, head := some h, len := len1 }

/-- A run of the snapshot task: before each `takeSnapshot` the live counters
hold the values the six atomic loads return, and the clock reads the given
time. -/
def takeSnapshots (s : snapshots) (xs : List (statiBenchmarkProducerSnapshot × Int)) :
    snapshots :=
  xs.foldl (fun s x => takeSnapshot { s with cur := x.1 } x.2) s

/-- The pointer reached from `p` after following `next` `k` times. -/
def follow (heap : List statiBenchmarkProducerSnapshot) (p : Option Nat) : Nat → Option Nat
  | 0 => p
  | k + 1 => (follow heap p k).bind (nextOf heap)

/-- The nodes met walking the `next` links from `p`, at most `fuel` of them. -/
def walk (heap : List statiBenchmarkProducerSnapshot) (p : Option Nat) :
    Nat → List statiBenchmarkProducerSnapshot
  | 0 => []
  | fuel + 1 =>
    match p with
    | none => []
    | some a =>
      match heap[a]? with
      | none => []
      | some nd => nd :: walk heap nd.next fuel

/-- The node `takeSnapshot` allocates for the counter values `x.1` read at time
`x.2`, with its `next` link. -/
def nodeOf (x : statiBenchmarkProducerSnapshot × Int) (nx : Option Nat) :
    statiBenchmarkProducerSnapshot :=
  { sendRequestSuccessCount := x.1.sendRequestSuccessCount,
    sendRequestFailedCount := x.1.sendRequestFailedCount,
    receiveResponseSuccessCount := x.1.receiveResponseSuccessCount,
    receiveResponseFailedCount := x.1.receiveResponseFailedCount,
    sendMessageSuccessTimeTotal := x.1.sendMessageSuccessTimeTotal,
    sendMessageMaxRT := x.1.sendMessageMaxRT,
    createdAt := x.2, next := nx }

/-- The pointer dereference `*p`; `none` when `p` is `nil` (or dangling). -/
def deref (heap : List statiBenchmarkProducerSnapshot) (p : Option Nat) :
    Option statiBenchmarkProducerSnapshot :=
  p.bind (fun a => heap[a]?)

/-- The arithmetic of `printStati` on a type `F` standing for `float64`:
`int64` subtraction, `Time.Sub` (a number of nanoseconds), the conversion
`float64(x)`, `Duration.Seconds`, the division of two `float64` and the
conversion `int64(f)`. -/
structure Arith (F : Type) where
  sub64 : Int → Int → Int
  timeSub : Int → Int → Int
  ofInt64 : Int → F
  seconds : Int → F
  div : F → F → F
  toInt64 : F → Int

/-- The arguments `printStati` passes to `fmt.Printf`, in the order of the
format string: send TPS, max RT, average RT, send failed, response failed,
total. -/
structure Report (F : Type) where
  sendTps : Int
  maxRT : Int
  avgRT : F
  sendFailed : Int
  responseFailed : Int
  total : Int
deriving DecidableEq

/-- What a call of `printStati` does: returns without printing, prints one
report line, or dereferences a `nil` snapshot. -/
inductive PrintResult (F : Type) where
  | noOutput : PrintResult F
  | line : Report F → PrintResult F
  | nilDeref : PrintResult F
deriving DecidableEq

/-- The method `snapshots.printStati`. -/
def printStati {F : Type} (A : Arith F) (s : snapshots) : PrintResult F :=
  if s.len < 10 then PrintResult.noOutput
  else
    match deref s.heap s.head, deref s.heap s.tail with
    | some f, some l =>
      let respSucCount :=
        A.ofInt64 (A.sub64 l.receiveResponseSuccessCount f.receiveResponseSuccessCount)
      let sendTps := A.div respSucCount (A.seconds (A.timeSub l.createdAt f.createdAt))
      let avgRT :=
        A.div (A.ofInt64 (A.sub64 l.sendMessageSuccessTimeTotal f.sendMessageSuccessTimeTotal))
          respSucCount
      let maxRT := s.cur.sendMessageMaxRT
      PrintResult.line
        { sendTps := A.toInt64 sendTps, maxRT := maxRT, avgRT := avgRT,
          sendFailed := l.sendRequestFailedCount,
          responseFailed := l.receiveResponseFailedCount,
          total := l.receiveResponseSuccessCount }
    | _, _ => PrintResult.nilDeref

/-- Truncation of a rational toward zero. -/
def truncQ (q : ℚ) : Int := Int.tdiv q.num q.den

/-- A `float64`: a finite value `(-1)^neg * m * 2^e` (a zero is `m = 0`, with
its sign), an infinity with its sign, or a NaN. -/
inductive Float64 where
  | finite : Bool → Nat → Int → Float64
  | inf : Bool → Float64
  | nan : Float64
deriving DecidableEq

/-- The number of halvings that bring `n` below 2, at most `fuel` of them. -/
def halvings : Nat → Nat → Nat
  | 0, _ => 0
  | fuel + 1, n => if n < 2 then 0 else halvings fuel (n / 2) + 1

/-- The integer `k` with `2^k <= n / d < 2^(k+1)`, for `n, d > 0`. -/
def floorLog2 (n d : Nat) : Int :=
  let k : Int := (halvings n n : Int) - (halvings d d : Int)
  if d * 2 ^ k.toNat ≤ n * 2 ^ (-k).toNat then k else k - 1

/-- The natural number nearest to `n / d`, a tie going to the even one. -/
def roundHalfEven (n d : Nat) : Nat :=
  let q := n / d
  let r := n % d
  if 2 * r < d then q
  else if d < 2 * r then q + 1
  else if q % 2 = 0 then q else q + 1

/-- The `float64` nearest to `(-1)^neg * n / d`, ties to even: 53 significant
bits, the exponent of the last bit not below `-1074`, and an infinity from
`2^1024` on. -/
def round64 (neg : Bool) (n d : Nat) : Float64 :=
  if n = 0 then Float64.finite neg 0 0
  else
    let e : Int := max (floorLog2 n d - 52) (-1074)
    let m : Nat := roundHalfEven (n * 2 ^ (-e).toNat) (d * 2 ^ e.toNat)
    if m = 0 then Float64.finite neg 0 0
    else if m = 2 ^ 53 then
      (if 971 ≤ e then Float64.inf neg else Float64.finite neg (2 ^ 52) (e + 1))
    else if 972 ≤ e then Float64.inf neg
    else Float64.finite neg m e

/-- The conversion `float64(x)` of an `int64`. -/
def Float64.ofInt (x : Int) : Float64 := round64 (decide (x < 0)) x.natAbs 1

/-- The sum `x + y` of two `float64`. -/
def Float64.add (x y : Float64) : Float64 :=
  match x, y with
  | Float64.nan, _ => Float64.nan
  | _, Float64.nan => Float64.nan
  | Float64.inf a, Float64.inf b => if a = b then Float64.inf a else Float64.nan
  | Float64.inf a, _ => Float64.inf a
  | _, Float64.inf b => Float64.inf b
  | Float64.finite s1 m1 e1, Float64.finite s2 m2 e2 =>
    let e := min e1 e2
    let a : Int := (if s1 then -1 else 1) * ((m1 * 2 ^ (e1 - e).toNat : Nat) : Int)
    let b : Int := (if s2 then -1 else 1) * ((m2 * 2 ^ (e2 - e).toNat : Nat) : Int)
    if a + b = 0 then Float64.finite (s1 && s2) 0 0
    else round64 (decide (a + b < 0)) ((a + b).natAbs * 2 ^ e.toNat) (2 ^ (-e).toNat)

/-- The quotient `x / y` of two `float64`. -/
def Float64.div (x y : Float64) : Float64 :=
  match x, y with
  | Float64.nan, _ => Float64.nan
  | _, Float64.nan => Float64.nan
  | Float64.inf _, Float64.inf _ => Float64.nan
  | Float64.inf a, Float64.finite b _ _ => Float64.inf (a != b)
  | Float64.finite a _ _, Float64.inf b => Float64.finite (a != b) 0 0
  | Float64.finite s1 m1 e1, Float64.finite s2 m2 e2 =>
    if m2 = 0 then (if m1 = 0 then Float64.nan else Float64.inf (s1 != s2))
    else round64 (s1 != s2) (m1 * 2 ^ (e1 - e2).toNat) (m2 * 2 ^ (e2 - e1).toNat)

/-- The method `Duration.Seconds` of the package `time`, for a duration of `d`
nanoseconds: `float64(sec) + float64(nsec)/1e9` with `sec = d / Second` and
`nsec = d % Second`. -/
def durationSeconds (d : Int) : Float64 :=
  Float64.add (Float64.ofInt (Int.tdiv d 1000000000))
    (Float64.div (Float64.ofInt (Int.tmod d 1000000000)) (Float64.ofInt 1000000000))

/-- The conversion `int64(f)`: the value truncated toward zero when that is an
`int64`; otherwise Go leaves the result to the implementation, `conv f`. -/
def Float64.toInt64 (conv : Float64 → Int) (f : Float64) : Int :=
  match f with
  | Float64.finite neg m e =>
    let t : Int := (if neg then -1 else 1) * ((m * 2 ^ e.toNat / 2 ^ (-e).toNat : Nat) : Int)
    if -(2 ^ 63) ≤ t ∧ t < 2 ^ 63 then t else conv f
  | _ => conv f

/-- The real value of a `float64`, `none` for an infinity or a NaN. -/
def Float64.real (x : Float64) : Option ℚ :=
  match x with
  | Float64.finite neg m e => some ((if neg then -1 else 1) * (m : ℚ) * (2 : ℚ) ^ e)
  | _ => none

/-- The method `Time.Sub` on two readings of the monotonic clock, in
nanoseconds: the difference, held within the range of a `time.Duration`. -/
def timeSub (t u : Int) : Int := min (2 ^ 63 - 1) (max (-(2 ^ 63)) (t - u))

/-- The arithmetic of Go: `int64` subtraction wraps, `Time.Sub` saturates, and
the `float64` operations round to nearest, ties to even; `conv` is what the
implementation returns for `int64(f)` when `f` is not an `int64`. -/
def goArith (conv : Float64 → Int) : Arith Float64 :=
  { sub64 := fun a b => wrap64 (a - b)
    timeSub := timeSub
    ofInt64 := Float64.ofInt
    seconds := durationSeconds
    div := Float64.div
    toInt64 := Float64.toInt64 conv }

/-- The arithmetic `A`, whose `float64` have the real values `real`, makes no
error on the window from the snapshot `h` to the snapshot `t`: the two
differences of counters and their conversions, the elapsed seconds, the two
divisions and the conversion of the rate to `int64` are exact. -/
structure ExactAt {F : Type} (A : Arith F) (real : F → Option ℚ)
    (h t : statiBenchmarkProducerSnapshot) : Prop where
  count : real (A.ofInt64
      (A.sub64 t.receiveResponseSuccessCount h.receiveResponseSuccessCount)) =
    some ((t.receiveResponseSuccessCount - h.receiveResponseSuccessCount : Int) : ℚ)
  total : real (A.ofInt64
      (A.sub64 t.sendMessageSuccessTimeTotal h.sendMessageSuccessTimeTotal)) =
    some ((t.sendMessageSuccessTimeTotal - h.sendMessageSuccessTimeTotal : Int) : ℚ)
  elapsed : real (A.seconds (A.timeSub t.createdAt h.createdAt)) =
    some (((t.createdAt - h.createdAt : Int) : ℚ) / 1000000000)
  divTps : ∀ a b : ℚ,
    real (A.ofInt64
      (A.sub64 t.receiveResponseSuccessCount h.receiveResponseSuccessCount)) = some a →
    real (A.seconds (A.timeSub t.createdAt h.createdAt)) = some b → b ≠ 0 →
    real (A.div
      (A.ofInt64 (A.sub64 t.receiveResponseSuccessCount h.receiveResponseSuccessCount))
      (A.seconds (A.timeSub t.createdAt h.createdAt))) = some (a / b)
  divAvg : ∀ a b : ℚ,
    real (A.ofInt64
      (A.sub64 t.sendMessageSuccessTimeTotal h.sendMessageSuccessTimeTotal)) = some a →
    real (A.ofInt64
      (A.sub64 t.receiveResponseSuccessCount h.receiveResponseSuccessCount)) = some b →
    b ≠ 0 →
    real (A.div
      (A.ofInt64 (A.sub64 t.sendMessageSuccessTimeTotal h.sendMessageSuccessTimeTotal))
      (A.ofInt64 (A.sub64 t.receiveResponseSuccessCount h.receiveResponseSuccessCount))) =
      some (a / b)
  conv : ∀ q : ℚ,
    real (A.div
      (A.ofInt64 (A.sub64 t.receiveResponseSuccessCount h.receiveResponseSuccessCount))
      (A.seconds (A.timeSub t.createdAt h.createdAt))) = some q →
    A.toInt64 (A.div
      (A.ofInt64 (A.sub64 t.receiveResponseSuccessCount h.receiveResponseSuccessCount))
      (A.seconds (A.timeSub t.createdAt h.createdAt))) = truncQ q

/-- The store, links and bookkeeping of the buffer after the insertions `xs`
into an empty buffer. -/
structure RingInv (s : snapshots) (xs : List (statiBenchmarkProducerSnapshot × Int)) : Prop where
  heap_len : s.heap.length = xs.length
  heap_at : ∀ (i : Nat) (x : statiBenchmarkProducerSnapshot × Int), xs[i]? = some x →
    s.heap[i]? = some (nodeOf x (if i + 1 < xs.length then some (i + 1) else none))
  len_eq : s.len = ((min xs.length 10 : Nat) : Int)
  head_eq : s.head = if xs.length = 0 then none else some (xs.length - min xs.length 10)
  tail_eq : s.tail = if xs.length = 0 then none else some (xs.length - 1)

/-- Live counter values after `100 * i` successful sends of 3 ms each, read at
second `i`: the input of the `i`-th tick of the snapshot task in a steady run. -/
def tickRead (i : Nat) : statiBenchmarkProducerSnapshot × Int :=
  ({ zeroStati with
      sendRequestSuccessCount := 100 * (i : Int),
      receiveResponseSuccessCount := 100 * (i : Int),
      sendMessageSuccessTimeTotal := 300 * (i : Int),
      sendMessageMaxRT := 3 }, 1000000000 * (i : Int))

/-- The reads of the first `n` ticks of the snapshot task. -/
def tickReads (n : Nat) : List (statiBenchmarkProducerSnapshot × Int) :=
  (List.range n).map tickRead

/-- The buffer after twelve ticks of a steady run. -/
def windowA : snapshots := takeSnapshots (emptySnapshots zeroStati) (tickReads 12)

/-- The buffer `windowA` once a worker has recorded one more successful send,
of 7 ms, in the live counters: no snapshot was taken in between. -/
def windowB : snapshots :=
  { windowA with
    cur := { windowA.cur with
      sendRequestSuccessCount := windowA.cur.sendRequestSuccessCount + 1,
      receiveResponseSuccessCount := windowA.cur.receiveResponseSuccessCount + 1,
      sendMessageSuccessTimeTotal := windowA.cur.sendMessageSuccessTimeTotal + 7,
      sendMessageMaxRT := 7 } }

/-- Live counter values after 9002 successful sends of 3 ms each, read
9.002 s after the start. -/
def lateRead : statiBenchmarkProducerSnapshot × Int :=
  ({ zeroStati with
      sendRequestSuccessCount := 9002,
      receiveResponseSuccessCount := 9002,
      sendMessageSuccessTimeTotal := 27006,
      sendMessageMaxRT := 3 }, 9002000000)

/-- Ten reads of the snapshot task, the first at time 0 with no success yet and
the last 9.002 s later with 9002 successes. -/
def skewedReads : List (statiBenchmarkProducerSnapshot × Int) :=
  (List.range 9).map tickRead ++ [lateRead]

/-- The buffer after the reads `skewedReads`. -/
def skewedWindow : snapshots := takeSnapshots (emptySnapshots zeroStati) skewedReads

/-- The value `int64(time.Since(now) / time.Millisecond)` for an elapsed time of
`d` nanoseconds: the division of two `time.Duration` truncates toward zero. -/
def currentRT (d : Int) : Int := Int.tdiv d 1000000

/-- The program points of the success branch of `produceMsg`, one before each
`sync/atomic` operation: the three `AddInt64` (lines 159, 160, 162), the first
`LoadInt64` (163), the loop test followed by `CompareAndSwapInt64` (164-165),
and the `LoadInt64` after a failed swap (168). -/
inductive Pc where
  | addRecv : Pc
  | addSend : Pc
  | addTotal : Pc
  | loadMax : Pc
  | loopCas : Pc
  | reload : Pc
deriving DecidableEq

/-- The local state of one `produceMsg` goroutine: its program point, its local
`prevRT`, and the elapsed times (in nanoseconds) of the successful sends it has
still to record, the one in progress first. The local `currentRT` is
`currentRT d` for the send `d` in progress. -/
structure Worker where
  pc : Pc
  prevRT : Int
  pending : List Int
deriving DecidableEq

/-- One atomic operation of a worker on the shared counters, with the local
computation that follows it. A worker with nothing left to record does not
touch the counters. -/
def step (c : statiBenchmarkProducerSnapshot) (w : Worker) :
    statiBenchmarkProducerSnapshot × Worker :=
  match w.pending with
  | [] => (c, w)
  | d :: rest =>
    match w.pc with
    | Pc.addRecv =>
      ({ c with receiveResponseSuccessCount := wrap64 (c.receiveResponseSuccessCount + 1) },
        { w with pc := Pc.addSend })
    | Pc.addSend =>
      ({ c with sendRequestSuccessCount := wrap64 (c.sendRequestSuccessCount + 1) },
        { w with pc := Pc.addTotal })
    | Pc.addTotal =>
      ({ c with sendMessageSuccessTimeTotal :=
          wrap64 (c.sendMessageSuccessTimeTotal + currentRT d) },
        { w with pc := Pc.loadMax })
    | Pc.loadMax => (c, { w with pc := Pc.loopCas, prevRT := c.sendMessageMaxRT })
    | Pc.loopCas =>
      if currentRT d > w.prevRT then
        if c.sendMessageMaxRT = w.prevRT then
          ({ c with sendMessageMaxRT := currentRT d },
            { w with pc := Pc.addRecv, pending := rest })
        else (c, { w with pc := Pc.reload })
      else (c, { w with pc := Pc.addRecv, pending := rest })
    | Pc.reload => (c, { w with pc := Pc.loopCas, prevRT := c.sendMessageMaxRT })

/-- The shared counters `stati` and the goroutines started by `producer.run`. -/
structure Sys where
  stati : statiBenchmarkProducerSnapshot
  workers : List Worker
deriving DecidableEq

/-- The scheduler lets worker `i` do its next atomic operation. -/
def stepAt (σ : Sys) (i : Nat) : Sys :=
  match σ.workers[i]? with
  | none => σ
  | some w => { stati := (step σ.stati w).1, workers := σ.workers.set i (step σ.stati w).2 }

/-- The execution under the schedule `sched`. -/
def runSched (σ : Sys) (sched : List Nat) : Sys := sched.foldl stepAt σ

/-- The start of a run: zeroed counters, and worker `i` about to record the
successful sends with elapsed times `ps[i]`. -/
def initSys (ps : List (List Int)) : Sys :=
  { stati := zeroStati,
    workers := ps.map (fun p => { pc := Pc.addRecv, prevRT := 0, pending := p }) }

/-- Every worker has recorded all its sends. -/
def allRecorded (σ : Sys) : Prop := ∀ w ∈ σ.workers, w.pending = []

instance (σ : Sys) : Decidable (allRecorded σ) := by
  unfold allRecorded
  infer_instance

/-- The latencies, in milliseconds, of all the sends of `ps`. -/
def latencies (ps : List (List Int)) : List Int := ps.flatten.map currentRT

/-- The largest of `0` and the latencies of `ps`. -/
def maxLatency (ps : List (List Int)) : Int := (latencies ps).foldl max 0

/-- The latencies 10 ms, 20 ms, ..., 1000 ms as elapsed nanoseconds. -/
def hundredSends : List Int := (List.range 100).map (fun k => 10000000 * ((k : Int) + 1))

/-- The number of `AddInt64(&stati.receiveResponseSuccessCount, 1)` a worker
has still to do. -/
def remRecv (w : Worker) : Int :=
  match w.pending, w.pc with
  | [], _ => 0
  | _ :: rest, Pc.addRecv => (rest.length : Int) + 1
  | _ :: rest, _ => (rest.length : Int)

/-- The number of `AddInt64(&stati.sendRequestSuccessCount, 1)` a worker has
still to do. -/
def remSend (w : Worker) : Int :=
  match w.pending, w.pc with
  | [], _ => 0
  | _ :: rest, Pc.addRecv => (rest.length : Int) + 1
  | _ :: rest, Pc.addSend => (rest.length : Int) + 1
  | _ :: rest, _ => (rest.length : Int)

/-- The sum of the latencies a worker has still to add to
`sendMessageSuccessTimeTotal`. -/
def remTotal (w : Worker) : Int :=
  match w.pending, w.pc with
  | [], _ => 0
  | d :: rest, Pc.addRecv => (rest.map currentRT).sum + currentRT d
  | d :: rest, Pc.addSend => (rest.map currentRT).sum + currentRT d
  | d :: rest, Pc.addTotal => (rest.map currentRT).sum + currentRT d
  | _ :: rest, _ => (rest.map currentRT).sum

/-- What holds of the stored maximum along every execution that records the
sends `all`: each of them is dominated by the stored maximum or still pending
in some worker, a worker about to compare-and-swap holds a `prevRT` that the
stored maximum has reached, and the stored maximum is `0` or one of the
latencies. -/
structure MaxInv (all : List Int) (σ : Sys) : Prop where
  covered : ∀ x ∈ all,
    currentRT x ≤ σ.stati.sendMessageMaxRT ∨ ∃ w ∈ σ.workers, x ∈ w.pending
  stale : ∀ w ∈ σ.workers, w.pc = Pc.loopCas → w.prevRT ≤ σ.stati.sendMessageMaxRT
  sub : ∀ w ∈ σ.workers, ∀ x ∈ w.pending, x ∈ all
  attained : σ.stati.sendMessageMaxRT = 0 ∨ ∃ x ∈ all, σ.stati.sendMessageMaxRT = currentRT x
  nonneg : 0 ≤ σ.stati.sendMessageMaxRT

/-- Every worker stands between two sends, at the top of the success branch. -/
def quiescent (σ : Sys) : Prop := ∀ w ∈ σ.workers, w.pc = Pc.addRecv

/-- The sends of the three workers of the scenario: each records the latencies
10 ms, 20 ms, ..., 1000 ms. -/
def threeWorkers : List (List Int) := [hundredSends, hundredSends, hundredSends]

/-- The success branch of `produceMsg` run by one goroutine alone on the
counters `c`, for a send that took `d` nanoseconds: its five atomic operations
in program order. -/
def recordSuccess (c : statiBenchmarkProducerSnapshot) (d : Int) :
    statiBenchmarkProducerSnapshot :=
  (runSched { stati := c, workers := [{ pc := Pc.addRecv, prevRT := 0, pending := [d] }] }
    [0, 0, 0, 0, 0]).stati

/-- What one pass of the `AGAIN` loop of `produceMsg` meets: whether the `exit`
channel is closed at the `select`, whether the status of the send result is
`SendOK`, and the time the send took, in nanoseconds. -/
structure Iteration where
  exitClosed : Bool
  sendOK : Bool
  elapsed : Int
deriving DecidableEq

/-- How a call of `produceMsg` ends on a finite script of passes: it returns, it
panics on a `nil` dereference, or it is still looping when the script ends. -/
inductive Outcome where
  | returned : Outcome
  | nilDerefPanic : Outcome
  | looping : Outcome
deriving DecidableEq

/-- The `AGAIN` loop of `produceMsg`. `err` is the variable assigned by
`rocketmq.NewProducer`; the failure branch evaluates `err.Error()` for its
`fmt.Printf`, which panics when `err` is `nil`, and otherwise jumps back to
`AGAIN` without touching a counter. -/
def produceMsgLoop (err : Option String) (stati : statiBenchmarkProducerSnapshot) :
    List Iteration → statiBenchmarkProducerSnapshot × Outcome
  | [] => (stati, Outcome.looping)
  | it :: rest =>
    if it.exitClosed then (stati, Outcome.returned)
    else if it.sendOK then produceMsgLoop err (recordSuccess stati it.elapsed) rest
    else
      match err with
      | none => (stati, Outcome.nilDerefPanic)
      | some _ => produceMsgLoop err stati rest

/-- The method `producer.produceMsg`: it returns at once when
`rocketmq.NewProducer` reports an error, and enters the loop otherwise. -/
def produceMsg (newProducerErr : Option String) (stati : statiBenchmarkProducerSnapshot)
    (script : List Iteration) : statiBenchmarkProducerSnapshot × Outcome :=
  match newProducerErr with
  | some _ => (stati, Outcome.returned)
  | none => produceMsgLoop newProducerErr stati script

/-- The fields of the struct `producer` that the flags fill in. -/
structure producer where
  topic : String
  nameSrv : String
  groupID : String
  instanceCount : Int
  testMinutes : Int
  bodySize : Int
deriving DecidableEq

/-- What `producer.run` does up to the point where it waits for the deadline
or a signal: a `println`, a call of `flags.Usage`, or the start of a
goroutine. -/
inductive RunEvent where
  | println : String → RunEvent
  | usage : RunEvent
  | goProduceMsg : Nat → RunEvent
  | goTakeSnapshot : RunEvent
  | goPrintStati : RunEvent
deriving DecidableEq

/-- Does the event start a goroutine. -/
def RunEvent.isTask (e : RunEvent) : Bool :=
  match e with
  | RunEvent.goProduceMsg _ => true
  | RunEvent.goTakeSnapshot => true
  | RunEvent.goPrintStati => true
  | _ => false

/-- The method `producer.run`, after `flags.Parse`, up to the start of the
last goroutine. -/
def run (bp : producer) : List RunEvent :=
  if bp.topic = ("") then [RunEvent.println ("empty topic"), RunEvent.usage]
  else if bp.groupID = ("") then [RunEvent.println ("empty group id"), RunEvent.usage]
  else if bp.nameSrv = ("") then [RunEvent.println ("empty namesrv"), RunEvent.usage]
  else if bp.instanceCount ≤ 0 then
    [RunEvent.println ("instance count must be positive integer"), RunEvent.usage]
  else if bp.testMinutes ≤ 0 then
    [RunEvent.println ("test time must be positive integer"), RunEvent.usage]
  else if bp.bodySize ≤ 0 then
    [RunEvent.println ("body size must be positive integer"), RunEvent.usage]
  else
    (List.range bp.instanceCount.toNat).map RunEvent.goProduceMsg ++
      [RunEvent.goTakeSnapshot, RunEvent.goPrintStati]

/-- The configuration is the one `producer.run` accepts: the three strings
are set and the three numbers are positive. -/
def producer.valid (bp : producer) : Prop :=
  bp.topic ≠ ("") ∧ bp.groupID ≠ ("") ∧ bp.nameSrv ≠ ("") ∧
    0 < bp.instanceCount ∧ 0 < bp.testMinutes ∧ 0 < bp.bodySize

/-- A configuration with the default numbers of the flags and the three
strings set. -/
def sampleProducer : producer :=
  { topic := ("bench"), nameSrv := ("localhost:9876"), groupID := ("g"),
    instanceCount := 1, testMinutes := 10, bodySize := 32 }

end Benchmark

namespace OrderProducer

/-- The program points of `worker.run`: before the `atomic.AddInt64` of the
loop condition, before `SendMessageOrderly` (with the value the decrement
returned), and after the loop. -/
inductive Pc where
  | loop : Pc
  | send : Int → Pc
  | exited : Pc
deriving DecidableEq

/-- The shared countdown `msgCount` that every `leftMsgCount` points to, the
program point of each worker goroutine, and the sends issued so far: the index
of the worker and the value its decrement returned. -/
structure Sys where
  leftMsgCount : Int
  workers : List Pc
  sent : List (Nat × Int)
deriving DecidableEq

/-- The scheduler lets worker `i` move: at the loop condition it decrements the
countdown atomically and enters the body when the new value is `>= 0`, and
leaves the loop otherwise; in the body it issues its send and returns to the
loop condition. -/
def stepAt (σ : Sys) (i : Nat) : Sys :=
  match σ.workers[i]? with
  | none => σ
  | some Pc.loop =>
    let v := Benchmark.wrap64 (σ.leftMsgCount - 1)
    if v ≥ 0 then { σ with leftMsgCount := v, workers := σ.workers.set i (Pc.send v) }
    else { σ with leftMsgCount := v, workers := σ.workers.set i Pc.exited }
  | some (Pc.send v) =>
    { σ with workers := σ.workers.set i Pc.loop, sent := σ.sent ++ [(i, v)] }
  | some Pc.exited => σ

/-- The execution under the schedule `sched`. -/
def runSched (σ : Sys) (sched : List Nat) : Sys := sched.foldl stepAt σ

/-- The state `main` builds: the countdown at `msgCount`, `workerCount` workers
about to evaluate their loop condition, nothing sent. -/
def initSys (msgCount : Int) (workerCount : Nat) : Sys :=
  { leftMsgCount := msgCount, workers := List.replicate workerCount Pc.loop, sent := [] }

/-- Every worker has left its loop: `wg.Wait()` returns. -/
def allExited (σ : Sys) : Prop := ∀ p ∈ σ.workers, p = Pc.exited

instance (σ : Sys) : Decidable (allExited σ) := by
  unfold allExited
  infer_instance

/-- Is the worker in the loop body, `1` or `0`. -/
def inBody (p : Pc) : Int :=
  match p with
  | Pc.send _ => 1
  | _ => 0

/-- Has the worker left the loop, `1` or `0`. -/
def hasExited (p : Pc) : Int :=
  match p with
  | Pc.exited => 1
  | _ => 0

/-- What holds along every execution from `initSys msgCount workerCount`: the
number of workers, the sign of every value a send was issued for, and the
account of the decrements made so far. -/
structure DrainInv (msgCount : Int) (workerCount : Nat) (σ : Sys) : Prop where
  len : σ.workers.length = workerCount
  vals : ∀ p ∈ σ.sent, 0 ≤ p.2
  pend : ∀ v : Int, Pc.send v ∈ σ.workers → 0 ≤ v
  cnt : (0 ≤ σ.leftMsgCount ∧ (σ.workers.map hasExited).sum = 0 ∧
      σ.leftMsgCount = msgCount - (σ.sent.length : Int) - (σ.workers.map inBody).sum) ∨
    (σ.leftMsgCount < 0 ∧ σ.leftMsgCount = -(σ.workers.map hasExited).sum ∧
      (σ.sent.length : Int) + (σ.workers.map inBody).sum = msgCount)

/-- The number of moves left before every worker has left its loop. -/
def movesLeft (σ : Sys) : Int :=
  2 * max σ.leftMsgCount 0 + (σ.workers.map inBody).sum +
    ((σ.workers.length : Int) - (σ.workers.map hasExited).sum)

/-- Worker `i` exists and has not left its loop: the scheduler can let it
move. -/
def enabled (σ : Sys) (i : Nat) : Prop := ∃ p, σ.workers[i]? = some p ∧ p ≠ Pc.exited

/-- Every move of the schedule is made by a worker that has not left its
loop. -/
def enabledSched (σ : Sys) : List Nat → Prop
  | [] => True
  | i :: rest => enabled σ i ∧ enabledSched (stepAt σ i) rest

/-- The schedule that lets 3 workers move in turn, 5 times each. -/
def roundRobin : List Nat := [0, 1, 2, 0, 1, 2, 0, 1, 2, 0, 1, 2, 0, 1, 2]

/-- The package-level variables of `examples/orderproducer/producer.go` that
the flags fill in. -/
structure Config where
  namesrvAddrs : String
  topic : String
  body : String
  groupID : String
  msgCount : Int
  workerCount : Int
deriving DecidableEq

/-- What `main` does: a `println`, the call of `rocketmq.NewProducer`, the
report of its failure, `producer.Start`, the panic of `wg.Add` on a negative
counter, the panic of `make` on a negative length, the allocation of a worker
slice of `2^32` entries or more, the start of a worker goroutine, `wg.Wait`,
and the deferred `producer.Shutdown`. -/
inductive MainEvent where
  | println : String → MainEvent
  | newProducer : MainEvent
  | createFailed : MainEvent
  | start : MainEvent
  | negativeWaitGroupPanic : MainEvent
  | makeslicePanic : MainEvent
  | allocateWorkers : MainEvent
  | goWorker : Nat → MainEvent
  | wait : MainEvent
  | shutdown : MainEvent
deriving DecidableEq

/-- Two's-complement wrap of an integer into the `int32` range: the counter
that `sync.WaitGroup.Add` keeps of its argument. -/
def wrap32 (x : Int) : Int := (x + 2 ^ 31) % 2 ^ 32 - 2 ^ 31

/-- The function `main`, after `flag.Parse`; `producerOk` tells whether
`rocketmq.NewProducer` succeeds. `wg.Add(workerCount)` panics when the `int32`
counter it leaves is negative, and `make([]worker, workerCount)` panics on a
negative length; the deferred `producer.Shutdown` runs in both cases. From
`2^32` workers on, what follows the allocation of the slice depends on the
memory of the machine and is not followed further. -/
def main (cfg : Config) (producerOk : Bool) : List MainEvent :=
  if cfg.namesrvAddrs = ("") then [MainEvent.println ("empty namesrv address")]
  else if cfg.topic = ("") then [MainEvent.println ("empty topic")]
  else if cfg.body = ("") then [MainEvent.println ("empty body")]
  else if cfg.groupID = ("") then [MainEvent.println ("empty groupID")]
  else if cfg.msgCount = 0 then [MainEvent.println ("zero message count")]
  else if cfg.workerCount = 0 then [MainEvent.println ("zero worker count")]
  else if producerOk = false then [MainEvent.newProducer, MainEvent.createFailed]
  else if wrap32 cfg.workerCount < 0 then
    [MainEvent.newProducer, MainEvent.start, MainEvent.negativeWaitGroupPanic,
      MainEvent.shutdown]
  else if cfg.workerCount < 0 then
    [MainEvent.newProducer, MainEvent.start, MainEvent.makeslicePanic, MainEvent.shutdown]
  else if 2 ^ 32 ≤ cfg.workerCount then
    [MainEvent.newProducer, MainEvent.start, MainEvent.allocateWorkers]
  else
    [MainEvent.newProducer, MainEvent.start] ++
      (List.range cfg.workerCount.toNat).map MainEvent.goWorker ++
      [MainEvent.wait, MainEvent.shutdown]

/-- Did `main` get past its validation: it called `rocketmq.NewProducer`. -/
def pastValidation (cfg : Config) (producerOk : Bool) : Bool :=
  (main cfg producerOk).contains MainEvent.newProducer

/-- A configuration with every string set and 2 workers, for `-m -1`. -/
def negativeCount : Config :=
  { namesrvAddrs := ("localhost:9876"), topic := ("local_test"), body := ("data"),
    groupID := ("local_test"), msgCount := -1, workerCount := 2 }

/-- A configuration with every string set and 100 messages, for `-w -1`. -/
def negativeWorkers : Config :=
  { namesrvAddrs := ("localhost:9876"), topic := ("local_test"), body := ("data"),
    groupID := ("local_test"), msgCount := 100, workerCount := -1 }

end OrderProducer

namespace Benchmark

theorem wrap64_of_range (x : Int) (h1 : -(2 ^ 63) ≤ x) (h2 : x < 2 ^ 63) : wrap64 x = x := by
  unfold wrap64
  rw [Int.emod_eq_of_lt (by omega) (by omega)]
  omega

theorem getElem?_setNext (heap : List statiBenchmarkProducerSnapshot) (p i : Nat)
    (v : Option Nat) :
    (setNext heap p v)[i]? =
      if i = p then (heap[p]?).map (fun nd => { nd with next := v }) else heap[i]? := by
  unfold setNext
  cases hp : heap[p]? with
  | none =>
    by_cases hi : i = p
    · subst hi; simp [hp]
    · simp [hi]
  | some nd =>
    by_cases hi : i = p
    · subst hi
      have hlt : i < heap.length := by
        by_contra hc
        rw [List.getElem?_eq_none (by omega)] at hp
        cases hp
      simp [List.getElem?_set, hlt]
    · have hne : ¬ p = i := fun h => hi h.symm
      simp [List.getElem?_set, hi, hne]

theorem ringInv_empty (stati : statiBenchmarkProducerSnapshot) :
    RingInv (emptySnapshots stati) [] := by
  constructor <;> simp [emptySnapshots]

theorem ringInv_step (s : snapshots) (xs : List (statiBenchmarkProducerSnapshot × Int))
    (x : statiBenchmarkProducerSnapshot × Int) (h : RingInv s xs) :
    RingInv (takeSnapshot { s with cur := x.1 } x.2) (xs ++ [x]) := by
  obtain ⟨hlen, hat, hl, hh, ht⟩ := h
  -- the store after the append and the relinking of the old tail
  have hheap2 : ∀ (i : Nat) (y : statiBenchmarkProducerSnapshot × Int),
      (xs ++ [x])[i]? = some y →
      (match s.tail with
        | some t => setNext (s.heap ++ [nodeOf x none]) t (some s.heap.length)
        | none => s.heap ++ [nodeOf x none])[i]? =
        some (nodeOf y (if i + 1 < xs.length + 1 then some (i + 1) else none)) := by
    intro i y hy
    by_cases hn : xs.length = 0
    · have hxs : xs = [] := List.length_eq_zero.mp hn
      subst hxs
      simp at ht hlen
      rw [ht, hlen]
      cases i with
      | zero => simp at hy; subst hy; simp
      | succ j => simp at hy
    · rw [ht, if_neg hn]
      simp only []
      rw [getElem?_setNext]
      by_cases hi : i < xs.length
      · rw [List.getElem?_append_left hi] at hy
        have h1 := hat i y hy
        by_cases hi2 : i = xs.length - 1
        · rw [if_pos hi2, ← hi2, List.getElem?_append_left (by omega), h1]
          have e1 : ¬ (i + 1 < xs.length) := by omega
          have e2 : i + 1 < xs.length + 1 := by omega
          simp [e1, e2, nodeOf, hlen, hi2]
          omega
        · rw [if_neg hi2, List.getElem?_append_left (by omega), h1]
          have e1 : i + 1 < xs.length := by omega
          have e2 : i + 1 < xs.length + 1 := by omega
          simp [e1, e2]
      · have hi3 : i = xs.length := by
          by_contra hc
          rw [List.getElem?_eq_none (by simp; omega)] at hy
          cases hy
        subst hi3
        have e0 : ¬ (xs.length = xs.length - 1) := by omega
        rw [if_neg e0]
        simp at hy
        subst hy
        rw [← hlen]
        simp [hlen]
  have hmin : min xs.length 10 = if xs.length < 10 then xs.length else 10 := by
    split <;> omega
  by_cases hn10 : xs.length < 10
  · rw [if_pos hn10] at hmin
    have hl1 : wrap64 (s.len + 1) = (xs.length : Int) + 1 := by
      rw [hl, hmin, wrap64_of_range] <;> omega
    have hres : takeSnapshot { s with cur := x.1 } x.2 =
        { head := some (match s.head with | some h => h | none => s.heap.length),
          tail := some s.heap.length, cur := x.1, len := (xs.length : Int) + 1,
          heap := (match s.tail with
            | some t => setNext (s.heap ++ [nodeOf x none]) t (some s.heap.length)
            | none => s.heap ++ [nodeOf x none]) } := by
      unfold takeSnapshot
      simp only []
      rw [hl1, if_neg (by omega)]
      rfl
    rw [hres]
    constructor
    · simp only []
      cases hts : s.tail with
      | none => simp [hlen]
      | some t =>
        simp only [setNext]
        split <;> simp [hlen]
    · intro i y hy
      simpa using hheap2 i y hy
    · simp only [List.length_append, List.length_singleton]
      have : min (xs.length + 1) 10 = xs.length + 1 := by omega
      rw [this]; push_cast; rfl
    · simp only [List.length_append, List.length_singleton]
      have : min (xs.length + 1) 10 = xs.length + 1 := by omega
      rw [this, hh, hmin]
      by_cases hn : xs.length = 0 <;> simp [hn, hlen]
    · simp [hlen]
  · rw [if_neg hn10] at hmin
    have hn0 : ¬ xs.length = 0 := by omega
    have hl1 : wrap64 (s.len + 1) = 11 := by
      rw [hl, hmin, wrap64_of_range] <;> omega
    have hl2 : wrap64 (11 - 1) = 10 := by
      rw [wrap64_of_range] <;> omega
    rw [if_neg hn0, hmin] at hh
    have hres : takeSnapshot { s with cur := x.1 } x.2 =
        { head := nextOf (match s.tail with
            | some t => setNext (s.heap ++ [nodeOf x none]) t (some s.heap.length)
            | none => s.heap ++ [nodeOf x none]) (xs.length - 10),
          tail := some s.heap.length, cur := x.1, len := 10,
          heap := (match s.tail with
            | some t => setNext (s.heap ++ [nodeOf x none]) t (some s.heap.length)
            | none => s.heap ++ [nodeOf x none]) } := by
      unfold takeSnapshot
      simp only []
      rw [hl1, if_pos (by omega), hl2, hh]
      rfl
    rw [hres]
    have hlt : xs.length - 10 < xs.length := by omega
    have hget : (xs ++ [x])[xs.length - 10]? = some (xs[xs.length - 10]) := by
      rw [List.getElem?_append_left hlt, List.getElem?_eq_getElem hlt]
    constructor
    · simp only []
      cases hts : s.tail with
      | none => simp [hlen]
      | some t =>
        simp only [setNext]
        split <;> simp [hlen]
    · intro i y hy
      simpa using hheap2 i y hy
    · simp only [List.length_append, List.length_singleton]
      have : min (xs.length + 1) 10 = 10 := by omega
      rw [this]; rfl
    · simp only [List.length_append, List.length_singleton]
      have : min (xs.length + 1) 10 = 10 := by omega
      rw [this]
      simp only [nextOf]
      rw [hheap2 _ _ hget]
      have e : xs.length - 10 + 1 < xs.length + 1 := by omega
      simp [nodeOf, e]
      omega
    · simp [hlen]

theorem takeSnapshots_append (s : snapshots)
    (xs : List (statiBenchmarkProducerSnapshot × Int))
    (x : statiBenchmarkProducerSnapshot × Int) :
    takeSnapshots s (xs ++ [x]) = takeSnapshot { takeSnapshots s xs with cur := x.1 } x.2 := by
  simp [takeSnapshots, List.foldl_append]

theorem ringInv_takeSnapshots (stati : statiBenchmarkProducerSnapshot)
    (xs : List (statiBenchmarkProducerSnapshot × Int)) :
    RingInv (takeSnapshots (emptySnapshots stati) xs) xs := by
  induction xs using List.reverseRecOn with
  | nil => exact ringInv_empty stati
  | append_singleton xs x ih =>
    rw [takeSnapshots_append]
    exact ringInv_step _ xs x ih

theorem ringInv_nextOf (s : snapshots) (xs : List (statiBenchmarkProducerSnapshot × Int))
    (h : RingInv s xs) (a : Nat) :
    nextOf s.heap a = if a + 1 < xs.length then some (a + 1) else none := by
  unfold nextOf
  by_cases ha : a < xs.length
  · rw [h.heap_at a xs[a] (List.getElem?_eq_getElem ha)]
    simp [nodeOf]
  · rw [List.getElem?_eq_none (by rw [h.heap_len]; omega)]
    have : ¬ (a + 1 < xs.length) := by omega
    simp [this]

theorem ringInv_follow (s : snapshots) (xs : List (statiBenchmarkProducerSnapshot × Int))
    (h : RingInv s xs) (a k : Nat) (ha : a < xs.length) :
    follow s.heap (some a) k = if a + k < xs.length then some (a + k) else none := by
  induction k with
  | zero => simp [follow, ha]
  | succ k ih =>
    simp only [follow]
    rw [ih]
    by_cases hk : a + k < xs.length
    · rw [if_pos hk]
      simp only [Option.some_bind]
      rw [ringInv_nextOf s xs h]
      rfl
    · have : ¬ (a + (k + 1) < xs.length) := by omega
      simp [hk, this]

theorem ringInv_walk (s : snapshots) (xs : List (statiBenchmarkProducerSnapshot × Int))
    (h : RingInv s xs) (fuel a : Nat) :
    (walk s.heap (if a < xs.length then some a else none) fuel).map
        (fun nd => { nd with next := none }) =
      ((xs.drop a).take fuel).map (fun x => nodeOf x none) := by
  induction fuel generalizing a with
  | zero => simp [walk]
  | succ fuel ih =>
    by_cases ha : a < xs.length
    · rw [if_pos ha]
      simp only [walk]
      rw [h.heap_at a xs[a] (List.getElem?_eq_getElem ha)]
      simp only []
      have hd : xs.drop a = xs[a] :: xs.drop (a + 1) := by
        exact List.drop_eq_getElem_cons ha
      rw [hd, List.take_succ_cons, List.map_cons, List.map_cons, ← ih (a + 1)]
      simp [nodeOf]
    · rw [if_neg ha]
      simp only [walk]
      rw [List.drop_eq_nil_of_le (by omega)]
      simp

theorem ringInv_head (s : snapshots) (xs : List (statiBenchmarkProducerSnapshot × Int))
    (h : RingInv s xs) :
    s.head = if xs.length - min xs.length 10 < xs.length
      then some (xs.length - min xs.length 10) else none := by
  rw [h.head_eq]
  by_cases hn : xs.length = 0
  · simp [hn]
  · have : xs.length - min xs.length 10 < xs.length := by omega
    simp [hn, this]

theorem ringInv_walk_length (s : snapshots)
    (xs : List (statiBenchmarkProducerSnapshot × Int)) (h : RingInv s xs) (fuel : Nat) :
    (walk s.heap s.head fuel).length ≤ 10 := by
  have hw := congrArg List.length (ringInv_walk s xs h fuel (xs.length - min xs.length 10))
  rw [← ringInv_head s xs h] at hw
  simp only [List.length_map, List.length_take, List.length_drop] at hw
  omega

/-- C1: after `n` insertions into an empty buffer `len` is `min n 10`, so it
never exceeds 10, and no walk from `head` meets more than 10 snapshots; after
the 11th insertion `len` is exactly 10 and the first-inserted snapshot, the
node at address 0, is not reached from `head` by any number of `next` links. -/
theorem takeSnapshots_len_le_ten (stati : statiBenchmarkProducerSnapshot)
    (xs : List (statiBenchmarkProducerSnapshot × Int)) :
    (takeSnapshots (emptySnapshots stati) xs).len = ((min xs.length 10 : Nat) : Int) ∧
    (takeSnapshots (emptySnapshots stati) xs).len ≤ 10 ∧
    (∀ fuel : Nat,
      (walk (takeSnapshots (emptySnapshots stati) xs).heap
        (takeSnapshots (emptySnapshots stati) xs).head fuel).length ≤ 10) ∧
    (xs.length = 11 →
      (takeSnapshots (emptySnapshots stati) xs).len = 10 ∧
      (takeSnapshots (emptySnapshots stati) xs).heap[0]? =
        xs.head?.map (fun x => nodeOf x (some 1)) ∧
      ∀ k : Nat,
        follow (takeSnapshots (emptySnapshots stati) xs).heap
          (takeSnapshots (emptySnapshots stati) xs).head k ≠ some 0) := by
  have h := ringInv_takeSnapshots stati xs
  refine ⟨h.len_eq, ?_, fun fuel => ringInv_walk_length _ xs h fuel, ?_⟩
  · rw [h.len_eq]
    have : min xs.length 10 ≤ 10 := Nat.min_le_right _ _
    exact_mod_cast this
  · intro h11
    refine ⟨?_, ?_, ?_⟩
    · rw [h.len_eq, h11]; rfl
    · cases xs with
      | nil => simp at h11
      | cons x rest =>
        have := h.heap_at 0 x (by simp)
        rw [this]
        simp at h11
        simp [h11]
    · intro k
      rw [h.head_eq, h11]
      simp only [show (11 : Nat) ≠ 0 by decide, if_false]
      rw [show (11 - min 11 10 : Nat) = 1 by decide, ringInv_follow _ xs h 1 k (by omega)]
      split
      · simp
      · simp

/-- C1 at eleven ticks of a steady run. -/
theorem takeSnapshots_len_le_ten_witness :
    (11 : Nat) = 11 ∧
    (takeSnapshots (emptySnapshots zeroStati) (tickReads 11)).len = 10 ∧
    ∀ k : Nat,
      follow (takeSnapshots (emptySnapshots zeroStati) (tickReads 11)).heap
        (takeSnapshots (emptySnapshots zeroStati) (tickReads 11)).head k ≠ some 0 :=
  ⟨rfl,
   ((takeSnapshots_len_le_ten zeroStati (tickReads 11)).2.2.2 (by simp [tickReads])).1,
   ((takeSnapshots_len_le_ten zeroStati (tickReads 11)).2.2.2 (by simp [tickReads])).2.2⟩

theorem ringInv_deref (s : snapshots) (xs : List (statiBenchmarkProducerSnapshot × Int))
    (h : RingInv s xs) (a : Nat) (ha : a < xs.length) :
    deref s.heap (some a) =
      some (nodeOf xs[a] (if a + 1 < xs.length then some (a + 1) else none)) := by
  simp only [deref, Option.some_bind]
  exact h.heap_at a xs[a] (List.getElem?_eq_getElem ha)

theorem printStati_ne_nilDeref_of_deref {F : Type} (A : Arith F) (s : snapshots)
    (f l : statiBenchmarkProducerSnapshot)
    (hf : deref s.heap s.head = some f) (hl : deref s.heap s.tail = some l) :
    printStati A s ≠ PrintResult.nilDeref := by
  unfold printStati
  rw [hf, hl]
  split <;> simp

/-- C10: after `n >= 1` insertions into an empty buffer the walk along `next`
from `head` meets exactly the last `min n 10` inserted snapshots, in insertion
order and each with the counter values and time read at its insertion; `head`
is the oldest retained one, `tail` the last inserted one, the chain reaches
`tail` after `min n 10 - 1` links and stops there (`tail.next` is `nil`); both
`head` and `tail` point to a node, and `printStati` dereferences no `nil`
snapshot. -/
theorem takeSnapshots_chain (stati : statiBenchmarkProducerSnapshot)
    (xs : List (statiBenchmarkProducerSnapshot × Int)) (hne : xs ≠ []) :
    (∀ fuel : Nat, 10 ≤ fuel →
      (walk (takeSnapshots (emptySnapshots stati) xs).heap
          (takeSnapshots (emptySnapshots stati) xs).head fuel).map
          (fun nd => { nd with next := none }) =
        (xs.drop (xs.length - 10)).map (fun x => nodeOf x none)) ∧
    (takeSnapshots (emptySnapshots stati) xs).head = some (xs.length - min xs.length 10) ∧
    (takeSnapshots (emptySnapshots stati) xs).tail = some (xs.length - 1) ∧
    follow (takeSnapshots (emptySnapshots stati) xs).heap
        (takeSnapshots (emptySnapshots stati) xs).head (min xs.length 10 - 1) =
      (takeSnapshots (emptySnapshots stati) xs).tail ∧
    nextOf (takeSnapshots (emptySnapshots stati) xs).heap (xs.length - 1) = none ∧
    (∀ k : Nat, min xs.length 10 ≤ k →
      follow (takeSnapshots (emptySnapshots stati) xs).heap
        (takeSnapshots (emptySnapshots stati) xs).head k = none) ∧
    deref (takeSnapshots (emptySnapshots stati) xs).heap
        (takeSnapshots (emptySnapshots stati) xs).head ≠ none ∧
    deref (takeSnapshots (emptySnapshots stati) xs).heap
        (takeSnapshots (emptySnapshots stati) xs).tail ≠ none ∧
    ∀ (F : Type) (A : Arith F),
      printStati A (takeSnapshots (emptySnapshots stati) xs) ≠ PrintResult.nilDeref := by
  have h := ringInv_takeSnapshots stati xs
  have hn : xs.length ≠ 0 := fun hc => hne (List.length_eq_zero.mp hc)
  have hhead : (takeSnapshots (emptySnapshots stati) xs).head =
      some (xs.length - min xs.length 10) := by rw [h.head_eq, if_neg hn]
  have htail : (takeSnapshots (emptySnapshots stati) xs).tail = some (xs.length - 1) := by
    rw [h.tail_eq, if_neg hn]
  have ha : xs.length - min xs.length 10 < xs.length := by omega
  have hb : xs.length - 1 < xs.length := by omega
  have hdh := ringInv_deref _ xs h _ ha
  have hdt := ringInv_deref _ xs h _ hb
  refine ⟨?_, hhead, htail, ?_, ?_, ?_, ?_, ?_, ?_⟩
  · intro fuel hfuel
    have hw := ringInv_walk _ xs h fuel (xs.length - min xs.length 10)
    rw [← ringInv_head _ xs h] at hw
    rw [hw]
    have e : xs.length - min xs.length 10 = xs.length - 10 := by omega
    rw [e, List.take_of_length_le]
    rw [List.length_drop]
    omega
  · rw [hhead, htail, ringInv_follow _ xs h _ _ ha]
    have e : xs.length - min xs.length 10 + (min xs.length 10 - 1) = xs.length - 1 := by omega
    rw [e, if_pos hb]
  · rw [ringInv_nextOf _ xs h]
    have : ¬ (xs.length - 1 + 1 < xs.length) := by omega
    simp [this]
  · intro k hk
    rw [hhead, ringInv_follow _ xs h _ _ ha]
    have : ¬ (xs.length - min xs.length 10 + k < xs.length) := by omega
    simp [this]
  · rw [hhead, hdh]; simp
  · rw [htail, hdt]; simp
  · intro F A
    rw [← hhead] at hdh
    rw [← htail] at hdt
    exact printStati_ne_nilDeref_of_deref A _ _ _ hdh hdt

/-- C10 at twelve ticks of a steady run: the chain holds the reads of ticks
2 to 11. -/
theorem takeSnapshots_chain_witness :
    tickReads 12 ≠ [] ∧
    (walk (takeSnapshots (emptySnapshots zeroStati) (tickReads 12)).heap
        (takeSnapshots (emptySnapshots zeroStati) (tickReads 12)).head 10).map
        (fun nd => { nd with next := none }) =
      ((tickReads 12).drop ((tickReads 12).length - 10)).map (fun x => nodeOf x none) :=
  ⟨by simp [tickReads],
   (takeSnapshots_chain zeroStati (tickReads 12) (by simp [tickReads])).1 10 (le_refl 10)⟩

end Benchmark

namespace Benchmark

set_option maxRecDepth 20000

theorem tdiv_mul_left_cancel (c n d : Int) (hc : 0 < c) (hd : 0 < d) :
    (c * n).tdiv (c * d) = n.tdiv d := by
  rcases le_or_lt 0 n with hn | hn
  · rw [Int.tdiv_eq_ediv (Int.mul_nonneg hc.le hn) (Int.mul_nonneg hc.le hd.le),
      Int.tdiv_eq_ediv hn hd.le, Int.mul_ediv_mul_of_pos _ _ hc]
  · have hm : 0 ≤ -n := by omega
    have e1 : c * n = -(c * (-n)) := by ring
    have e2 : n = -(-n) := by ring
    rw [e1, Int.neg_tdiv, Int.tdiv_eq_ediv (Int.mul_nonneg hc.le hm) (Int.mul_nonneg hc.le hd.le),
      Int.mul_ediv_mul_of_pos _ _ hc]
    conv_rhs => rw [e2, Int.neg_tdiv, Int.tdiv_eq_ediv hm hd.le]

theorem truncQ_div (a b : Int) (hb : 0 < b) : truncQ ((a : ℚ) / (b : ℚ)) = a.tdiv b := by
  obtain ⟨c, ha, hb2⟩ := Rat.exists_eq_mul_div_num_and_eq_mul_div_den a hb.ne'
  have hden : (0 : Int) < (((a : ℚ) / (b : ℚ)).den : Int) := by
    exact_mod_cast Rat.den_pos _
  have hc : 0 < c := by
    by_contra hcon
    have hc0 : c ≤ 0 := by omega
    have : c * (((a : ℚ) / (b : ℚ)).den : Int) ≤ 0 :=
      Int.mul_nonpos_of_nonpos_of_nonneg hc0 hden.le
    omega
  have key := congrArg₂ Int.tdiv ha hb2
  rw [tdiv_mul_left_cancel _ _ _ hc hden] at key
  unfold truncQ
  exact key.symm

theorem exact_div_seconds (c d : Int) (hd : 0 < d) :
    (c : ℚ) / ((d : ℚ) / 1000000000) = ((c * 1000000000 : Int) : ℚ) / (d : ℚ) := by
  have hd2 : (d : ℚ) ≠ 0 := by exact_mod_cast hd.ne'
  push_cast
  field_simp

theorem printStati_line {F : Type} (A : Arith F) (s : snapshots)
    (h t : statiBenchmarkProducerSnapshot) (hlen : 10 ≤ s.len)
    (hh : deref s.heap s.head = some h) (ht : deref s.heap s.tail = some t) :
    printStati A s = PrintResult.line
      { sendTps := A.toInt64 (A.div
          (A.ofInt64 (A.sub64 t.receiveResponseSuccessCount h.receiveResponseSuccessCount))
          (A.seconds (A.timeSub t.createdAt h.createdAt))),
        maxRT := s.cur.sendMessageMaxRT,
        avgRT := A.div
          (A.ofInt64 (A.sub64 t.sendMessageSuccessTimeTotal h.sendMessageSuccessTimeTotal))
          (A.ofInt64 (A.sub64 t.receiveResponseSuccessCount h.receiveResponseSuccessCount)),
        sendFailed := t.sendRequestFailedCount,
        responseFailed := t.receiveResponseFailedCount,
        total := t.receiveResponseSuccessCount } := by
  unfold printStati
  rw [if_neg (by omega), hh, ht]

theorem windowA_len : windowA.len = 10 := by decide

theorem windowA_head : deref windowA.heap windowA.head = some (nodeOf (tickRead 2) (some 3)) := by
  decide

theorem windowA_tail : deref windowA.heap windowA.tail = some (nodeOf (tickRead 11) none) := by
  decide

/-- C9: for every arithmetic that makes no error on the window (exact
arithmetic), when `len` is at least 10, `head` points to `h`, `tail` points to
`t` and `t.createdAt - h.createdAt` is a positive number of nanoseconds,
`printStati` prints: as send TPS the truncation toward zero of the difference
of the `receiveResponseSuccessCount` of `t` and `h` divided by the elapsed
seconds (that is, the truncated quotient of that difference times `10^9` by
the elapsed nanoseconds); as max RT the live `sendMessageMaxRT` counter of
`cur`; as average RT a `float64` whose value, when the difference of the
`receiveResponseSuccessCount` is not zero, is the difference of the
`sendMessageSuccessTimeTotal` divided by it; and the `sendRequestFailedCount`,
`receiveResponseFailedCount` and `receiveResponseSuccessCount` of `t`. -/
theorem printStati_exact_report {F : Type} (A : Arith F) (real : F → Option ℚ)
    (s : snapshots) (h t : statiBenchmarkProducerSnapshot) (hlen : 10 ≤ s.len)
    (hh : deref s.heap s.head = some h) (ht : deref s.heap s.tail = some t)
    (he : 0 < t.createdAt - h.createdAt) (hx : ExactAt A real h t) :
    printStati A s = PrintResult.line
      { sendTps := truncQ
          (((t.receiveResponseSuccessCount - h.receiveResponseSuccessCount : Int) : ℚ) /
            (((t.createdAt - h.createdAt : Int) : ℚ) / 1000000000)),
        maxRT := s.cur.sendMessageMaxRT,
        avgRT := A.div
          (A.ofInt64 (A.sub64 t.sendMessageSuccessTimeTotal h.sendMessageSuccessTimeTotal))
          (A.ofInt64 (A.sub64 t.receiveResponseSuccessCount h.receiveResponseSuccessCount)),
        sendFailed := t.sendRequestFailedCount,
        responseFailed := t.receiveResponseFailedCount,
        total := t.receiveResponseSuccessCount } ∧
    (t.receiveResponseSuccessCount - h.receiveResponseSuccessCount ≠ 0 →
      real (A.div
          (A.ofInt64 (A.sub64 t.sendMessageSuccessTimeTotal h.sendMessageSuccessTimeTotal))
          (A.ofInt64 (A.sub64 t.receiveResponseSuccessCount h.receiveResponseSuccessCount))) =
        some
          (((t.sendMessageSuccessTimeTotal - h.sendMessageSuccessTimeTotal : Int) : ℚ) /
            ((t.receiveResponseSuccessCount - h.receiveResponseSuccessCount : Int) : ℚ))) ∧
    truncQ
        (((t.receiveResponseSuccessCount - h.receiveResponseSuccessCount : Int) : ℚ) /
          (((t.createdAt - h.createdAt : Int) : ℚ) / 1000000000)) =
      ((t.receiveResponseSuccessCount - h.receiveResponseSuccessCount) * 1000000000).tdiv
        (t.createdAt - h.createdAt) := by
  have hsec : ((t.createdAt - h.createdAt : Int) : ℚ) / 1000000000 ≠ 0 := by
    have : ((t.createdAt - h.createdAt : Int) : ℚ) ≠ 0 := by exact_mod_cast he.ne'
    exact div_ne_zero this (by norm_num)
  have hq := hx.divTps _ _ hx.count hx.elapsed hsec
  have htr := hx.conv _ hq
  refine ⟨?_, ?_, ?_⟩
  · rw [printStati_line A s h t hlen hh ht, htr]
  · intro hc
    have hc2 : ((t.receiveResponseSuccessCount - h.receiveResponseSuccessCount : Int) : ℚ) ≠ 0 := by
      exact_mod_cast hc
    exact hx.divAvg _ _ hx.total hx.count hc2
  · rw [exact_div_seconds _ _ he, truncQ_div _ _ he]

theorem goArith_exactAt_windowA (conv : Float64 → Int) :
    ExactAt (goArith conv) Float64.real (nodeOf (tickRead 2) (some 3))
      (nodeOf (tickRead 11) none) := by
  have hc : Float64.ofInt (wrap64 ((nodeOf (tickRead 11) none).receiveResponseSuccessCount -
      (nodeOf (tickRead 2) (some 3)).receiveResponseSuccessCount)) =
      Float64.finite false 7916483719987200 (-43) := by decide
  have htot : Float64.ofInt (wrap64 ((nodeOf (tickRead 11) none).sendMessageSuccessTimeTotal -
      (nodeOf (tickRead 2) (some 3)).sendMessageSuccessTimeTotal)) =
      Float64.finite false 5937362789990400 (-41) := by decide
  have hs : durationSeconds (timeSub (nodeOf (tickRead 11) none).createdAt
      (nodeOf (tickRead 2) (some 3)).createdAt) =
      Float64.finite false 5066549580791808 (-49) := by decide
  have hd1 : Float64.div (Float64.finite false 7916483719987200 (-43))
      (Float64.finite false 5066549580791808 (-49)) =
      Float64.finite false 7036874417766400 (-46) := by decide
  have hd2 : Float64.div (Float64.finite false 5937362789990400 (-41))
      (Float64.finite false 7916483719987200 (-43)) =
      Float64.finite false 6755399441055744 (-51) := by decide
  have hcv : Float64.toInt64 conv (Float64.finite false 7036874417766400 (-46)) = 100 := by
    unfold Float64.toInt64
    simp only []
    rw [if_pos (by decide)]
    decide
  have e1 : (nodeOf (tickRead 11) none).receiveResponseSuccessCount -
      (nodeOf (tickRead 2) (some 3)).receiveResponseSuccessCount = 900 := by decide
  have e2 : (nodeOf (tickRead 11) none).sendMessageSuccessTimeTotal -
      (nodeOf (tickRead 2) (some 3)).sendMessageSuccessTimeTotal = 2700 := by decide
  have e3 : (nodeOf (tickRead 11) none).createdAt -
      (nodeOf (tickRead 2) (some 3)).createdAt = 9000000000 := by decide
  constructor
  · simp only [goArith]
    rw [hc, e1]
    norm_num [Float64.real]
  · simp only [goArith]
    rw [htot, e2]
    norm_num [Float64.real]
  · simp only [goArith]
    rw [hs, e3]
    norm_num [Float64.real]
  · intro a b ha hb _
    simp only [goArith] at ha hb ⊢
    rw [hc] at ha ⊢
    rw [hs] at hb ⊢
    rw [hd1]
    simp only [Float64.real, Option.some.injEq] at ha hb ⊢
    rw [← ha, ← hb]
    norm_num
  · intro a b ha hb _
    simp only [goArith] at ha hb ⊢
    rw [htot] at ha ⊢
    rw [hc] at hb ⊢
    rw [hd2]
    simp only [Float64.real, Option.some.injEq] at ha hb ⊢
    rw [← ha, ← hb]
    norm_num
  · intro q hq
    simp only [goArith] at hq ⊢
    rw [hc, hs, hd1] at hq ⊢
    rw [hcv]
    simp only [Float64.real, Option.some.injEq] at hq
    rw [← hq]
    have : ((if false = true then (-1 : ℚ) else 1) * ((7036874417766400 : Nat) : ℚ) *
        (2 : ℚ) ^ (-46 : Int)) = ((100 : Int) : ℚ) / ((1 : Int) : ℚ) := by norm_num
    rw [this, truncQ_div 100 1 (by decide)]
    decide

/-- C9 with the arithmetic of Go at the buffer after twelve ticks of a steady
run, where the `float64` operations happen to be exact: the window runs from
the read of tick 2 to the read of tick 11, 900 successes in 9 s, and the line
shows the truncation of `900 / 9`. -/
theorem printStati_exact_report_witness :
    printStati (goArith (fun _ => 0)) windowA = PrintResult.line
      { sendTps := truncQ ((((nodeOf (tickRead 11) none).receiveResponseSuccessCount -
          (nodeOf (tickRead 2) (some 3)).receiveResponseSuccessCount : Int) : ℚ) /
          ((((nodeOf (tickRead 11) none).createdAt -
            (nodeOf (tickRead 2) (some 3)).createdAt : Int) : ℚ) / 1000000000)),
        maxRT := windowA.cur.sendMessageMaxRT,
        avgRT := (goArith (fun _ => 0)).div
          ((goArith (fun _ => 0)).ofInt64 ((goArith (fun _ => 0)).sub64
            (nodeOf (tickRead 11) none).sendMessageSuccessTimeTotal
            (nodeOf (tickRead 2) (some 3)).sendMessageSuccessTimeTotal))
          ((goArith (fun _ => 0)).ofInt64 ((goArith (fun _ => 0)).sub64
            (nodeOf (tickRead 11) none).receiveResponseSuccessCount
            (nodeOf (tickRead 2) (some 3)).receiveResponseSuccessCount)),
        sendFailed := (nodeOf (tickRead 11) none).sendRequestFailedCount,
        responseFailed := (nodeOf (tickRead 11) none).receiveResponseFailedCount,
        total := (nodeOf (tickRead 11) none).receiveResponseSuccessCount } :=
  (printStati_exact_report (goArith (fun _ => 0)) Float64.real windowA
    (nodeOf (tickRead 2) (some 3)) (nodeOf (tickRead 11) none)
    (le_of_eq windowA_len.symm) windowA_head windowA_tail (by decide)
    (goArith_exactAt_windowA (fun _ => 0))).1

/-- C5, as amended: for every arithmetic, `printStati` prints nothing when
`len` is below 10; when `len` is at least 10 in two buffer states whose `head`
point to equal snapshots, whose `tail` point to equal snapshots and whose live
`sendMessageMaxRT` counters are equal, both calls do the same (they print the
same report line). -/
theorem printStati_window (F : Type) (A : Arith F) :
    (∀ s : snapshots, s.len < 10 → printStati A s = PrintResult.noOutput) ∧
    (∀ s1 s2 : snapshots, 10 ≤ s1.len → 10 ≤ s2.len →
      deref s1.heap s1.head = deref s2.heap s2.head →
      deref s1.heap s1.tail = deref s2.heap s2.tail →
      s1.cur.sendMessageMaxRT = s2.cur.sendMessageMaxRT →
      printStati A s1 = printStati A s2) := by
  constructor
  · intro s hs
    unfold printStati
    rw [if_pos hs]
  · intro s1 s2 h1 h2 hh ht hm
    unfold printStati
    rw [if_neg (by omega), if_neg (by omega), hh, ht, hm]

/-- C5, as amended, at three tick reads (nothing printed) and at the buffer
after twelve ticks against the same buffer with other live success counters. -/
theorem printStati_window_witness :
    printStati (goArith (fun _ => 0)) (takeSnapshots (emptySnapshots zeroStati) (tickReads 3)) =
      PrintResult.noOutput ∧
    printStati (goArith (fun _ => 0)) windowA =
      printStati (goArith (fun _ => 0))
        { windowA with cur := { windowA.cur with receiveResponseSuccessCount := 1234 } } :=
  ⟨(printStati_window Float64 (goArith (fun _ => 0))).1 _ (by decide),
   (printStati_window Float64 (goArith (fun _ => 0))).2 windowA
     { windowA with cur := { windowA.cur with receiveResponseSuccessCount := 1234 } }
     (le_of_eq windowA_len.symm) (le_of_eq windowA_len.symm) rfl rfl rfl⟩

/-- C5, as stated, fails: `windowA` and `windowB` have the same `len` of 10, the
same `head`, the same `tail` and the same store of snapshots, yet `printStati`
prints different lines for them, since max RT is read from the live counter. -/
theorem printStati_not_only_head_tail :
    windowA.len = 10 ∧ windowB.len = 10 ∧
    windowA.head = windowB.head ∧ windowA.tail = windowB.tail ∧
    windowA.heap = windowB.heap ∧
    printStati (goArith (fun _ => 0)) windowA ≠ printStati (goArith (fun _ => 0)) windowB := by
  refine ⟨windowA_len, windowA_len, rfl, rfl, rfl, ?_⟩
  have hA := printStati_line (goArith (fun _ => 0)) windowA (nodeOf (tickRead 2) (some 3))
    (nodeOf (tickRead 11) none) (le_of_eq windowA_len.symm) windowA_head windowA_tail
  have hB := printStati_line (goArith (fun _ => 0)) windowB (nodeOf (tickRead 2) (some 3))
    (nodeOf (tickRead 11) none) (le_of_eq windowA_len.symm) windowA_head windowA_tail
  rw [hA, hB]
  intro hc
  have h3 := congrArg (fun r => match r with
    | PrintResult.line rep => rep.maxRT
    | _ => 0) hc
  simp only [] at h3
  revert h3
  decide

/-- With the arithmetic of Go the rounding of `float64` shows: on a window of
9002 successes in 9.002 s, where the exact rate is 1000 per second, the
quotient of the two `float64` is just below 1000 and `printStati` prints a
send TPS of 999. -/
theorem printStati_float64_rounds (conv : Float64 → Int) :
    printStati (goArith conv) skewedWindow = PrintResult.line
      { sendTps := 999, maxRT := 3,
        avgRT := Float64.finite false 6755399441055744 (-51),
        sendFailed := 0, responseFailed := 0, total := 9002 } ∧
    truncQ (((9002 : Int) : ℚ) / (((9002000000 : Int) : ℚ) / 1000000000)) = 1000 := by
  constructor
  · have hlen : skewedWindow.len = 10 := by decide
    have hh : deref skewedWindow.heap skewedWindow.head =
        some (nodeOf (tickRead 0) (some 1)) := by decide
    have ht : deref skewedWindow.heap skewedWindow.tail = some (nodeOf lateRead none) := by
      decide
    have hdiv : (goArith conv).div
        ((goArith conv).ofInt64 ((goArith conv).sub64
          (nodeOf lateRead none).receiveResponseSuccessCount
          (nodeOf (tickRead 0) (some 1)).receiveResponseSuccessCount))
        ((goArith conv).seconds ((goArith conv).timeSub
          (nodeOf lateRead none).createdAt (nodeOf (tickRead 0) (some 1)).createdAt)) =
        Float64.finite false 8796093022207999 (-43) := by
      simp only [goArith]
      decide
    have htps : (goArith conv).toInt64 (Float64.finite false 8796093022207999 (-43)) = 999 := by
      simp only [goArith]
      unfold Float64.toInt64
      simp only []
      rw [if_pos (by decide)]
      decide
    have havg : (goArith conv).div
        ((goArith conv).ofInt64 ((goArith conv).sub64
          (nodeOf lateRead none).sendMessageSuccessTimeTotal
          (nodeOf (tickRead 0) (some 1)).sendMessageSuccessTimeTotal))
        ((goArith conv).ofInt64 ((goArith conv).sub64
          (nodeOf lateRead none).receiveResponseSuccessCount
          (nodeOf (tickRead 0) (some 1)).receiveResponseSuccessCount)) =
        Float64.finite false 6755399441055744 (-51) := by
      simp only [goArith]
      decide
    have hm : skewedWindow.cur.sendMessageMaxRT = 3 := by decide
    rw [printStati_line (goArith conv) skewedWindow _ _ (le_of_eq hlen.symm) hh ht,
      hdiv, htps, havg, hm]
    rfl
  · rw [exact_div_seconds _ _ (by decide), truncQ_div _ _ (by decide)]
    decide

/-- Known values of the `float64` model: `0.1` and `1/3` rounded, the tie at
`2^53 + 1` going to the even neighbour, `2^63 - 1` converting to `2^63`, the
overflow of `2^1024` to an infinity, half the least subnormal going to zero,
and the divisions by zero. -/
theorem float64_known_values :
    round64 false 1 10 = Float64.finite false 7205759403792794 (-56) ∧
    round64 false 1 3 = Float64.finite false 6004799503160661 (-54) ∧
    Float64.ofInt (2 ^ 53 + 1) = Float64.finite false (2 ^ 52) 1 ∧
    Float64.ofInt (2 ^ 53 + 3) = Float64.finite false (2 ^ 52 + 2) 1 ∧
    Float64.ofInt (2 ^ 63 - 1) = Float64.finite false (2 ^ 52) 11 ∧
    round64 false (2 ^ 1024) 1 = Float64.inf false ∧
    round64 false (2 ^ 1024 - 2 ^ 970 - 1) 1 = Float64.finite false (2 ^ 53 - 1) 971 ∧
    round64 true 1 (2 ^ 1075) = Float64.finite true 0 0 ∧
    Float64.div (Float64.ofInt 1) (Float64.ofInt 0) = Float64.inf false ∧
    Float64.div (Float64.ofInt 0) (Float64.ofInt 0) = Float64.nan ∧
    durationSeconds 9002000000 = Float64.finite false 5067675480698651 (-49) := by
  refine ⟨?_, ?_, ?_, ?_, ?_, ?_, ?_, ?_, ?_, ?_, ?_⟩ <;> decide

end Benchmark

namespace Benchmark

set_option maxRecDepth 20000

theorem wrap64_modEq (a : Int) : Int.ModEq (2 ^ 64) (wrap64 a) a := by
  unfold wrap64 Int.ModEq
  have h := Int.emod_emod_of_dvd (a + 2 ^ 63) (dvd_refl (2 ^ 64 : Int))
  omega

theorem wrap64_eq_of_modEq (a b : Int) (h : Int.ModEq (2 ^ 64) a b) : wrap64 a = wrap64 b := by
  unfold wrap64
  have h2 : Int.ModEq (2 ^ 64) (a + 2 ^ 63) (b + 2 ^ 63) := h.add_right _
  unfold Int.ModEq at h2
  rw [h2]

theorem wrap64_add_left (a b : Int) : wrap64 (wrap64 a + b) = wrap64 (a + b) :=
  wrap64_eq_of_modEq _ _ ((wrap64_modEq a).add_right b)

theorem wrap64_idem (a : Int) : wrap64 (wrap64 a) = wrap64 a :=
  wrap64_eq_of_modEq _ _ (wrap64_modEq a)

theorem wrap64_shift (a b k : Int) (h : wrap64 a = wrap64 b) :
    wrap64 (a + k) = wrap64 (b + k) := by
  apply wrap64_eq_of_modEq
  have ha := wrap64_modEq a
  have hb := wrap64_modEq b
  rw [h] at ha
  exact (ha.symm.trans hb).add_right k

theorem sum_map_set {α : Type} (f : α → Int) (l : List α) (i : Nat) (w w2 : α)
    (h : l[i]? = some w) :
    ((l.set i w2).map f).sum = (l.map f).sum - f w + f w2 := by
  induction l generalizing i with
  | nil => simp at h
  | cons a l ih =>
    cases i with
    | zero =>
      simp at h
      subst h
      simp
      ring
    | succ j =>
      simp at h
      simp only [List.set_cons_succ, List.map_cons, List.sum_cons]
      rw [ih j h]
      ring

theorem stepAt_of_get (σ : Sys) (i : Nat) (w : Worker) (h : σ.workers[i]? = some w) :
    stepAt σ i = { stati := (step σ.stati w).1, workers := σ.workers.set i (step σ.stati w).2 } := by
  unfold stepAt
  rw [h]

theorem stepAt_of_none (σ : Sys) (i : Nat) (h : σ.workers[i]? = none) : stepAt σ i = σ := by
  unfold stepAt
  rw [h]

theorem runSched_append (σ : Sys) (s1 s2 : List Nat) :
    runSched σ (s1 ++ s2) = runSched (runSched σ s1) s2 := by
  simp [runSched, List.foldl_append]

theorem runSched_snoc (σ : Sys) (s1 : List Nat) (i : Nat) :
    runSched σ (s1 ++ [i]) = stepAt (runSched σ s1) i := by
  simp [runSched, List.foldl_append]

theorem stepAt_tracked (g : statiBenchmarkProducerSnapshot → Int) (r : Worker → Int)
    (hstep : ∀ c w, wrap64 (g (step c w).1 + r (step c w).2) = wrap64 (g c + r w))
    (hrange : ∀ c w, wrap64 (g c) = g c → wrap64 (g (step c w).1) = g (step c w).1)
    (σ : Sys) (i : Nat) :
    wrap64 (g (stepAt σ i).stati + ((stepAt σ i).workers.map r).sum) =
      wrap64 (g σ.stati + (σ.workers.map r).sum) ∧
    (wrap64 (g σ.stati) = g σ.stati → wrap64 (g (stepAt σ i).stati) = g (stepAt σ i).stati) := by
  cases hw : σ.workers[i]? with
  | none =>
    rw [stepAt_of_none σ i hw]
    exact ⟨rfl, fun h => h⟩
  | some w =>
    rw [stepAt_of_get σ i w hw]
    simp only []
    refine ⟨?_, hrange σ.stati w⟩
    rw [sum_map_set r σ.workers i w _ hw]
    have e1 : g (step σ.stati w).1 + ((σ.workers.map r).sum - r w + r (step σ.stati w).2) =
        (g (step σ.stati w).1 + r (step σ.stati w).2) + ((σ.workers.map r).sum - r w) := by ring
    have e2 : g σ.stati + (σ.workers.map r).sum =
        (g σ.stati + r w) + ((σ.workers.map r).sum - r w) := by ring
    rw [e1, e2]
    exact wrap64_shift _ _ _ (hstep σ.stati w)

theorem runSched_tracked (g : statiBenchmarkProducerSnapshot → Int) (r : Worker → Int)
    (hstep : ∀ c w, wrap64 (g (step c w).1 + r (step c w).2) = wrap64 (g c + r w))
    (hrange : ∀ c w, wrap64 (g c) = g c → wrap64 (g (step c w).1) = g (step c w).1)
    (sched : List Nat) (σ : Sys) (h0 : wrap64 (g σ.stati) = g σ.stati) :
    wrap64 (g (runSched σ sched).stati + ((runSched σ sched).workers.map r).sum) =
      wrap64 (g σ.stati + (σ.workers.map r).sum) ∧
    wrap64 (g (runSched σ sched).stati) = g (runSched σ sched).stati := by
  induction sched generalizing σ with
  | nil => exact ⟨rfl, h0⟩
  | cons i rest ih =>
    have h1 := stepAt_tracked g r hstep hrange σ i
    have h2 := ih (stepAt σ i) (h1.2 h0)
    have e : runSched σ (i :: rest) = runSched (stepAt σ i) rest := rfl
    rw [e]
    exact ⟨h2.1.trans h1.1, h2.2⟩

theorem sum_map_zero_of_allRecorded (r : Worker → Int) (hr : ∀ w, w.pending = [] → r w = 0)
    (l : List Worker) (h : ∀ w ∈ l, w.pending = []) : (l.map r).sum = 0 := by
  induction l with
  | nil => rfl
  | cons a l ih =>
    simp only [List.map_cons, List.sum_cons]
    rw [hr a (h a (List.mem_cons_self _ _)), ih (fun w hw => h w (List.mem_cons_of_mem _ hw))]
    rfl

theorem step_recv_tracked (c : statiBenchmarkProducerSnapshot) (w : Worker) :
    wrap64 ((step c w).1.receiveResponseSuccessCount + remRecv (step c w).2) =
      wrap64 (c.receiveResponseSuccessCount + remRecv w) := by
  obtain ⟨pc, prev, pending⟩ := w
  cases pending with
  | nil => rfl
  | cons d rest =>
    cases pc <;> simp only [step, remRecv]
    · rw [wrap64_add_left]; congr 1; ring
    · split
      · split
        · cases rest <;> simp [remRecv]
        · rfl
      · cases rest <;> simp [remRecv]

theorem step_send_tracked (c : statiBenchmarkProducerSnapshot) (w : Worker) :
    wrap64 ((step c w).1.sendRequestSuccessCount + remSend (step c w).2) =
      wrap64 (c.sendRequestSuccessCount + remSend w) := by
  obtain ⟨pc, prev, pending⟩ := w
  cases pending with
  | nil => rfl
  | cons d rest =>
    cases pc <;> simp only [step, remSend]
    · rw [wrap64_add_left]; congr 1; ring
    · split
      · split
        · cases rest <;> simp [remSend]
        · rfl
      · cases rest <;> simp [remSend]

theorem step_total_tracked (c : statiBenchmarkProducerSnapshot) (w : Worker) :
    wrap64 ((step c w).1.sendMessageSuccessTimeTotal + remTotal (step c w).2) =
      wrap64 (c.sendMessageSuccessTimeTotal + remTotal w) := by
  obtain ⟨pc, prev, pending⟩ := w
  cases pending with
  | nil => rfl
  | cons d rest =>
    cases pc <;> simp only [step, remTotal]
    · rw [wrap64_add_left]; congr 1; ring
    · split
      · split
        · cases rest <;> simp [remTotal, add_comm]
        · rfl
      · cases rest <;> simp [remTotal, add_comm]

theorem step_recv_range (c : statiBenchmarkProducerSnapshot) (w : Worker)
    (h : wrap64 c.receiveResponseSuccessCount = c.receiveResponseSuccessCount) :
    wrap64 (step c w).1.receiveResponseSuccessCount =
      (step c w).1.receiveResponseSuccessCount := by
  obtain ⟨pc, prev, pending⟩ := w
  cases pending with
  | nil => exact h
  | cons d rest =>
    cases pc <;> simp only [step]
    all_goals first
      | exact h
      | exact wrap64_idem _
      | (split <;> [split; skip]) <;> exact h

theorem step_send_range (c : statiBenchmarkProducerSnapshot) (w : Worker)
    (h : wrap64 c.sendRequestSuccessCount = c.sendRequestSuccessCount) :
    wrap64 (step c w).1.sendRequestSuccessCount = (step c w).1.sendRequestSuccessCount := by
  obtain ⟨pc, prev, pending⟩ := w
  cases pending with
  | nil => exact h
  | cons d rest =>
    cases pc <;> simp only [step]
    all_goals first
      | exact h
      | exact wrap64_idem _
      | (split <;> [split; skip]) <;> exact h

theorem step_total_range (c : statiBenchmarkProducerSnapshot) (w : Worker)
    (h : wrap64 c.sendMessageSuccessTimeTotal = c.sendMessageSuccessTimeTotal) :
    wrap64 (step c w).1.sendMessageSuccessTimeTotal =
      (step c w).1.sendMessageSuccessTimeTotal := by
  obtain ⟨pc, prev, pending⟩ := w
  cases pending with
  | nil => exact h
  | cons d rest =>
    cases pc <;> simp only [step]
    all_goals first
      | exact h
      | exact wrap64_idem _
      | (split <;> [split; skip]) <;> exact h

theorem remRecv_init (p : List Int) :
    remRecv { pc := Pc.addRecv, prevRT := 0, pending := p } = (p.length : Int) := by
  cases p <;> simp [remRecv]

theorem remSend_init (p : List Int) :
    remSend { pc := Pc.addRecv, prevRT := 0, pending := p } = (p.length : Int) := by
  cases p <;> simp [remSend]

theorem remTotal_init (p : List Int) :
    remTotal { pc := Pc.addRecv, prevRT := 0, pending := p } = (p.map currentRT).sum := by
  cases p <;> simp [remTotal, add_comm]

theorem sum_remRecv_init (ps : List (List Int)) :
    ((initSys ps).workers.map remRecv).sum = (ps.flatten.length : Int) := by
  induction ps with
  | nil => rfl
  | cons p ps ih =>
    simp only [initSys, List.map_cons, List.sum_cons, List.flatten_cons, List.length_append,
      remRecv_init] at ih ⊢
    rw [ih]
    push_cast
    rfl

theorem sum_remSend_init (ps : List (List Int)) :
    ((initSys ps).workers.map remSend).sum = (ps.flatten.length : Int) := by
  induction ps with
  | nil => rfl
  | cons p ps ih =>
    simp only [initSys, List.map_cons, List.sum_cons, List.flatten_cons, List.length_append,
      remSend_init] at ih ⊢
    rw [ih]
    push_cast
    rfl

theorem sum_remTotal_init (ps : List (List Int)) :
    ((initSys ps).workers.map remTotal).sum = (latencies ps).sum := by
  induction ps with
  | nil => rfl
  | cons p ps ih =>
    simp only [initSys, latencies, List.map_cons, List.sum_cons, List.flatten_cons,
      List.map_append, List.sum_append, remTotal_init] at ih ⊢
    rw [ih]

theorem remRecv_of_nil (w : Worker) (h : w.pending = []) : remRecv w = 0 := by
  obtain ⟨pc, prev, pending⟩ := w
  simp only at h
  subst h
  rfl

theorem remSend_of_nil (w : Worker) (h : w.pending = []) : remSend w = 0 := by
  obtain ⟨pc, prev, pending⟩ := w
  simp only at h
  subst h
  rfl

theorem remTotal_of_nil (w : Worker) (h : w.pending = []) : remTotal w = 0 := by
  obtain ⟨pc, prev, pending⟩ := w
  simp only at h
  subst h
  rfl

/-- Whatever the schedule, once every worker has recorded all its sends the
two success counters hold the number of sends and the total holds the sum of
the latencies, each wrapped to `int64`. -/
theorem counts_wrapped (ps : List (List Int)) (sched : List Nat)
    (hdone : allRecorded (runSched (initSys ps) sched)) :
    (runSched (initSys ps) sched).stati.receiveResponseSuccessCount =
      wrap64 (ps.flatten.length : Int) ∧
    (runSched (initSys ps) sched).stati.sendRequestSuccessCount =
      wrap64 (ps.flatten.length : Int) ∧
    (runSched (initSys ps) sched).stati.sendMessageSuccessTimeTotal =
      wrap64 (latencies ps).sum := by
  have h0 : wrap64 (0 : Int) = 0 := by decide
  have hr := runSched_tracked (fun c => c.receiveResponseSuccessCount) remRecv
    step_recv_tracked step_recv_range sched (initSys ps) h0
  have hs := runSched_tracked (fun c => c.sendRequestSuccessCount) remSend
    step_send_tracked step_send_range sched (initSys ps) h0
  have ht := runSched_tracked (fun c => c.sendMessageSuccessTimeTotal) remTotal
    step_total_tracked step_total_range sched (initSys ps) h0
  simp only [] at hr hs ht
  rw [sum_map_zero_of_allRecorded remRecv remRecv_of_nil _ hdone, sum_remRecv_init] at hr
  rw [sum_map_zero_of_allRecorded remSend remSend_of_nil _ hdone, sum_remSend_init] at hs
  rw [sum_map_zero_of_allRecorded remTotal remTotal_of_nil _ hdone, sum_remTotal_init] at ht
  have z : (initSys ps).stati = zeroStati := rfl
  simp only [z, zeroStati, add_zero, zero_add] at hr hs ht
  exact ⟨by rw [← hr.2]; exact hr.1, by rw [← hs.2]; exact hs.1, by rw [← ht.2]; exact ht.1⟩

theorem step_max_mono (c : statiBenchmarkProducerSnapshot) (w : Worker) :
    c.sendMessageMaxRT ≤ (step c w).1.sendMessageMaxRT := by
  obtain ⟨pc, prev, pending⟩ := w
  cases pending with
  | nil => exact le_refl _
  | cons d rest =>
    cases pc <;> simp only [step]
    all_goals first
      | exact le_refl _
      | skip
    split
    · split
      · simp only []
        omega
      · exact le_refl _
    · exact le_refl _

theorem step_pending_covered (c : statiBenchmarkProducerSnapshot) (w : Worker)
    (hst : w.pc = Pc.loopCas → w.prevRT ≤ c.sendMessageMaxRT) :
    ∀ x ∈ w.pending,
      x ∈ (step c w).2.pending ∨ currentRT x ≤ (step c w).1.sendMessageMaxRT := by
  obtain ⟨pc, prev, pending⟩ := w
  cases pending with
  | nil => intro x hx; cases hx
  | cons d rest =>
    intro x hx
    cases pc <;> simp only [step]
    all_goals first
      | exact Or.inl hx
      | skip
    have hp : prev ≤ c.sendMessageMaxRT := hst rfl
    rcases List.mem_cons.mp hx with hxd | hxr
    · subst hxd
      split
      · split
        · right; exact le_refl _
        · left; exact hx
      · right
        simp only []
        omega
    · split
      · split
        · left; exact hxr
        · left; exact hx
      · left; exact hxr

theorem step_pending_sub (c : statiBenchmarkProducerSnapshot) (w : Worker) :
    ∀ x ∈ (step c w).2.pending, x ∈ w.pending := by
  obtain ⟨pc, prev, pending⟩ := w
  cases pending with
  | nil => intro x hx; exact hx
  | cons d rest =>
    intro x
    cases pc <;> simp only [step]
    all_goals first
      | exact fun hx => hx
      | skip
    split
    · split
      · exact fun hx => List.mem_cons_of_mem _ hx
      · exact fun hx => hx
    · exact fun hx => List.mem_cons_of_mem _ hx

theorem step_stale (c : statiBenchmarkProducerSnapshot) (w : Worker)
    (hst : w.pc = Pc.loopCas → w.prevRT ≤ c.sendMessageMaxRT) :
    (step c w).2.pc = Pc.loopCas → (step c w).2.prevRT ≤ (step c w).1.sendMessageMaxRT := by
  obtain ⟨pc, prev, pending⟩ := w
  cases pending with
  | nil => exact hst
  | cons d rest =>
    cases pc <;> simp only [step]
    all_goals first
      | (intro h; cases h; done)
      | (intro _; exact le_refl _)
      | skip
    split
    · split
      · intro h; cases h
      · intro h; cases h
    · intro h; cases h

theorem step_attained (c : statiBenchmarkProducerSnapshot) (w : Worker) :
    (step c w).1.sendMessageMaxRT = c.sendMessageMaxRT ∨
      ∃ x ∈ w.pending, (step c w).1.sendMessageMaxRT = currentRT x := by
  obtain ⟨pc, prev, pending⟩ := w
  cases pending with
  | nil => exact Or.inl rfl
  | cons d rest =>
    cases pc <;> simp only [step]
    all_goals first
      | exact Or.inl rfl
      | exact Or.inl trivial
      | skip
    split
    · split
      · exact Or.inr ⟨d, List.mem_cons_self _ _, rfl⟩
      · exact Or.inl rfl
    · exact Or.inl rfl

theorem mem_set_of_ne (l : List Worker) (i : Nat) (w w0 w2 : Worker)
    (hi : l[i]? = some w) (h0 : w0 ∈ l) (hne : w0 ≠ w) : w0 ∈ l.set i w2 := by
  obtain ⟨j, hj⟩ := List.mem_iff_getElem?.mp h0
  have hji : i ≠ j := by
    intro e
    subst e
    rw [hi] at hj
    exact hne (Option.some.inj hj).symm
  apply List.mem_iff_getElem?.mpr
  exact ⟨j, by rw [List.getElem?_set_ne hji]; exact hj⟩

theorem mem_set_self (l : List Worker) (i : Nat) (w w2 : Worker) (hi : l[i]? = some w) :
    w2 ∈ l.set i w2 := by
  have hlt : i < l.length := by
    by_contra hc
    rw [List.getElem?_eq_none (by omega)] at hi
    cases hi
  apply List.mem_iff_getElem?.mpr
  exact ⟨i, by simp [List.getElem?_set, hlt]⟩

theorem stepAt_maxInv (all : List Int) (σ : Sys) (i : Nat) (h : MaxInv all σ) :
    MaxInv all (stepAt σ i) := by
  cases hw : σ.workers[i]? with
  | none => rw [stepAt_of_none σ i hw]; exact h
  | some w =>
    rw [stepAt_of_get σ i w hw]
    have hwmem : w ∈ σ.workers := List.mem_iff_getElem?.mpr ⟨i, hw⟩
    have hmono := step_max_mono σ.stati w
    have hst := h.stale w hwmem
    constructor
    · intro x hx
      simp only []
      rcases h.covered x hx with hle | ⟨w0, hw0, hx0⟩
      · left; omega
      · by_cases he : w0 = w
        · subst he
          rcases step_pending_covered σ.stati w0 hst x hx0 with hin | hle
          · right
            exact ⟨_, mem_set_self σ.workers i w0 _ hw, hin⟩
          · left; exact hle
        · right
          exact ⟨w0, mem_set_of_ne σ.workers i w w0 _ hw hw0 he, hx0⟩
    · intro w0 hw0 hpc
      simp only [] at hw0 ⊢
      rcases List.mem_or_eq_of_mem_set hw0 with hold | hnew
      · have := h.stale w0 hold hpc
        omega
      · subst hnew
        exact step_stale σ.stati w hst hpc
    · intro w0 hw0 x hx
      simp only [] at hw0
      rcases List.mem_or_eq_of_mem_set hw0 with hold | hnew
      · exact h.sub w0 hold x hx
      · subst hnew
        exact h.sub w hwmem x (step_pending_sub σ.stati w x hx)
    · simp only []
      rcases step_attained σ.stati w with he | ⟨x, hx, he⟩
      · rw [he]; exact h.attained
      · right
        exact ⟨x, h.sub w hwmem x hx, he⟩
    · simp only []
      have := h.nonneg
      omega

theorem runSched_maxInv (all : List Int) (sched : List Nat) (σ : Sys) (h : MaxInv all σ) :
    MaxInv all (runSched σ sched) := by
  induction sched generalizing σ with
  | nil => exact h
  | cons i rest ih => exact ih (stepAt σ i) (stepAt_maxInv all σ i h)

theorem initSys_maxInv (ps : List (List Int)) : MaxInv ps.flatten (initSys ps) := by
  constructor
  · intro x hx
    right
    obtain ⟨p, hp, hxp⟩ := List.mem_flatten.mp hx
    exact ⟨{ pc := Pc.addRecv, prevRT := 0, pending := p },
      List.mem_map.mpr ⟨p, hp, rfl⟩, hxp⟩
  · intro w hw hpc
    obtain ⟨p, _, hp⟩ := List.mem_map.mp hw
    subst hp
    cases hpc
  · intro w hw x hx
    obtain ⟨p, hpm, hp⟩ := List.mem_map.mp hw
    subst hp
    exact List.mem_flatten.mpr ⟨p, hpm, hx⟩
  · exact Or.inl rfl
  · exact le_refl _

theorem foldl_max_eq (L : List Int) (a m : Int) (ha : a ≤ m) (hL : ∀ x ∈ L, x ≤ m)
    (hm : a = m ∨ m ∈ L) : L.foldl max a = m := by
  induction L generalizing a with
  | nil =>
    rcases hm with h | h
    · exact h
    · cases h
  | cons y L ih =>
    simp only [List.foldl_cons]
    have hy : y ≤ m := hL y (List.mem_cons_self _ _)
    apply ih (max a y) (max_le ha hy) (fun x hx => hL x (List.mem_cons_of_mem _ hx))
    rcases hm with h | h
    · left; subst h; exact max_eq_left hy
    · rcases List.mem_cons.mp h with h1 | h1
      · left; subst h1; exact max_eq_right ha
      · right; exact h1

/-- Whatever the schedule, once every worker has recorded all its sends the
stored maximum is the largest of `0` and the latencies. -/
theorem maxRT_final (ps : List (List Int)) (sched : List Nat)
    (hdone : allRecorded (runSched (initSys ps) sched)) :
    (runSched (initSys ps) sched).stati.sendMessageMaxRT = maxLatency ps := by
  have h := runSched_maxInv ps.flatten sched (initSys ps) (initSys_maxInv ps)
  symm
  apply foldl_max_eq _ _ _ h.nonneg
  · intro y hy
    obtain ⟨x, hx, hxy⟩ := List.mem_map.mp hy
    subst hxy
    rcases h.covered x hx with hle | ⟨w, hw, hxw⟩
    · exact hle
    · rw [hdone w hw] at hxw
      cases hxw
  · rcases h.attained with h0 | ⟨x, hx, he⟩
    · left; exact h0.symm
    · right
      rw [he]
      exact List.mem_map.mpr ⟨x, hx, rfl⟩

theorem stepAt_max_mono (σ : Sys) (i : Nat) :
    σ.stati.sendMessageMaxRT ≤ (stepAt σ i).stati.sendMessageMaxRT := by
  cases hw : σ.workers[i]? with
  | none => rw [stepAt_of_none σ i hw]
  | some w =>
    rw [stepAt_of_get σ i w hw]
    exact step_max_mono σ.stati w

theorem stepAt_set (c : statiBenchmarkProducerSnapshot) (l : List Worker) (i : Nat)
    (wk : Worker) (hi : i < l.length) :
    stepAt { stati := c, workers := l.set i wk } i =
      { stati := (step c wk).1, workers := l.set i (step c wk).2 } := by
  have hget : (l.set i wk)[i]? = some wk := by simp [List.getElem?_set, hi]
  rw [stepAt_of_get _ i wk hget]
  simp only [List.set_set]

/-- A worker that runs alone records one send in five atomic operations. -/
theorem solo_iteration (σ : Sys) (i : Nat) (prev d : Int) (rest : List Int)
    (hw : σ.workers[i]? = some { pc := Pc.addRecv, prevRT := prev, pending := d :: rest }) :
    ∃ c, runSched σ [i, i, i, i, i] =
      { stati := c,
        workers := σ.workers.set i
          { pc := Pc.addRecv, prevRT := σ.stati.sendMessageMaxRT, pending := rest } } := by
  have hi : i < σ.workers.length := by
    by_contra hc
    rw [List.getElem?_eq_none (by omega)] at hw
    cases hw
  simp only [runSched, List.foldl_cons, List.foldl_nil]
  rw [stepAt_of_get σ i _ hw]
  simp only [step]
  rw [stepAt_set _ _ _ _ hi]
  simp only [step]
  rw [stepAt_set _ _ _ _ hi]
  simp only [step]
  rw [stepAt_set _ _ _ _ hi]
  simp only [step]
  rw [stepAt_set _ _ _ _ hi]
  simp only [step]
  by_cases hgt : currentRT d > σ.stati.sendMessageMaxRT
  · simp only [hgt, if_true]
    exact ⟨_, rfl⟩
  · simp only [hgt, if_false]
    exact ⟨_, rfl⟩

theorem exists_complete_aux (n : Nat) (σ : Sys) (hq : quiescent σ)
    (hn : (σ.workers.map (fun w => (w.pending.length : Int))).sum ≤ (n : Int)) :
    ∃ sched, allRecorded (runSched σ sched) := by
  induction n generalizing σ with
  | zero =>
    refine ⟨[], ?_⟩
    intro w hw
    have hnn : ∀ x ∈ σ.workers.map (fun w => (w.pending.length : Int)), 0 ≤ x := by
      intro x hx
      obtain ⟨w0, _, h0⟩ := List.mem_map.mp hx
      subst h0
      exact Int.natCast_nonneg _
    have hle := List.single_le_sum hnn _ (List.mem_map.mpr ⟨w, hw, rfl⟩)
    have h0 : (w.pending.length : Int) ≤ 0 := by
      simp only [Nat.cast_zero] at hn
      exact le_trans hle hn
    have h1 : w.pending.length = 0 := by omega
    exact List.length_eq_zero.mp h1
  | succ n ih =>
    by_cases hdone : allRecorded σ
    · exact ⟨[], hdone⟩
    · unfold allRecorded at hdone
      push_neg at hdone
      obtain ⟨w, hw, hpend⟩ := hdone
      obtain ⟨i, hi⟩ := List.mem_iff_getElem?.mp hw
      obtain ⟨pc, prev, pending⟩ := w
      have hpc : pc = Pc.addRecv := hq _ hw
      subst hpc
      cases pending with
      | nil => exact absurd rfl hpend
      | cons d rest =>
        obtain ⟨c, hc⟩ := solo_iteration σ i prev d rest hi
        have hq2 : quiescent (runSched σ [i, i, i, i, i]) := by
          rw [hc]
          intro w0 hw0
          simp only [] at hw0
          rcases List.mem_or_eq_of_mem_set hw0 with hold | hnew
          · exact hq w0 hold
          · subst hnew; rfl
        have hn2 : ((runSched σ [i, i, i, i, i]).workers.map
            (fun w => (w.pending.length : Int))).sum ≤ (n : Int) := by
          rw [hc]
          simp only []
          rw [sum_map_set (fun w => (w.pending.length : Int)) σ.workers i _ _ hi]
          simp only [List.length_cons]
          push_cast at hn ⊢
          omega
        obtain ⟨sched, hs⟩ := ih _ hq2 hn2
        refine ⟨[i, i, i, i, i] ++ sched, ?_⟩
        rw [runSched_append]
        exact hs

/-- From the start of a run some schedule lets every worker record all its
sends. -/
theorem exists_complete (ps : List (List Int)) :
    ∃ sched, allRecorded (runSched (initSys ps) sched) := by
  have hq : quiescent (initSys ps) := by
    intro w hw
    obtain ⟨p, _, hp⟩ := List.mem_map.mp hw
    subst hp
    rfl
  have hnn : ∀ x ∈ (initSys ps).workers.map (fun w => (w.pending.length : Int)), 0 ≤ x := by
    intro x hx
    obtain ⟨w0, _, h0⟩ := List.mem_map.mp hx
    subst h0
    exact Int.natCast_nonneg _
  have hsum := List.sum_nonneg hnn
  exact exists_complete_aux
    ((initSys ps).workers.map (fun w => (w.pending.length : Int))).sum.toNat (initSys ps) hq
    (by rw [Int.toNat_of_nonneg hsum])

/-- C2: from `sendMessageMaxRT = 0`, under every schedule of the atomic
operations of the workers: no operation decreases the stored maximum; once
every worker has recorded all its sends the stored maximum is the largest of
`0` and the submitted latencies, it is at least every submitted latency and,
when the latencies are non-negative and there is one, it is one of them. Some
schedule does let every worker finish. A single update running alone from a
stored value `c.sendMessageMaxRT` leaves the larger of that value and the
submitted latency. -/
theorem sendMessageMaxRT_is_max (ps : List (List Int)) :
    (∀ sched : List Nat,
      (∀ i : Nat, (runSched (initSys ps) sched).stati.sendMessageMaxRT ≤
        (stepAt (runSched (initSys ps) sched) i).stati.sendMessageMaxRT) ∧
      (allRecorded (runSched (initSys ps) sched) →
        (runSched (initSys ps) sched).stati.sendMessageMaxRT = maxLatency ps ∧
        (∀ x ∈ latencies ps, x ≤ (runSched (initSys ps) sched).stati.sendMessageMaxRT) ∧
        ((∀ x ∈ latencies ps, 0 ≤ x) → latencies ps ≠ [] →
          (runSched (initSys ps) sched).stati.sendMessageMaxRT ∈ latencies ps))) ∧
    (∃ sched : List Nat, allRecorded (runSched (initSys ps) sched)) ∧
    (∀ (c : statiBenchmarkProducerSnapshot) (d : Int),
      (runSched { stati := c, workers := [{ pc := Pc.loadMax, prevRT := 0, pending := [d] }] }
        [0, 0]).stati.sendMessageMaxRT = max c.sendMessageMaxRT (currentRT d)) := by
  refine ⟨?_, exists_complete ps, ?_⟩
  · intro sched
    refine ⟨fun i => stepAt_max_mono _ i, ?_⟩
    intro hdone
    have h := runSched_maxInv ps.flatten sched (initSys ps) (initSys_maxInv ps)
    have hcov : ∀ x ∈ latencies ps,
        x ≤ (runSched (initSys ps) sched).stati.sendMessageMaxRT := by
      intro y hy
      obtain ⟨x, hx, hxy⟩ := List.mem_map.mp hy
      subst hxy
      rcases h.covered x hx with hle | ⟨w, hw, hxw⟩
      · exact hle
      · rw [hdone w hw] at hxw
        cases hxw
    refine ⟨maxRT_final ps sched hdone, hcov, ?_⟩
    intro hnn hne
    rcases h.attained with h0 | ⟨x, hx, he⟩
    · obtain ⟨y, hy⟩ := List.exists_mem_of_ne_nil _ hne
      have h1 := hcov y hy
      have h2 := hnn y hy
      have : y = (runSched (initSys ps) sched).stati.sendMessageMaxRT := by omega
      rw [← this]
      exact hy
    · rw [he]
      exact List.mem_map.mpr ⟨x, hx, rfl⟩
  · intro c d
    simp only [runSched, List.foldl_cons, List.foldl_nil, stepAt, List.getElem?_cons_zero,
      step, List.set_cons_zero]
    by_cases hgt : currentRT d > c.sendMessageMaxRT
    · simp only [hgt, if_true]
      exact (max_eq_right (le_of_lt hgt)).symm
    · simp only [hgt, if_false]
      exact (max_eq_left (not_lt.mp hgt)).symm

/-- C2 on two workers recording 5 ms then 3 ms, and 7 ms, under a schedule in
which the compare-and-swap of the second worker fails once: the stored maximum
ends at 7. -/
theorem sendMessageMaxRT_is_max_witness :
    allRecorded (runSched (initSys [[5000000, 3000000], [7000000]])
      [0, 1, 0, 1, 0, 1, 0, 1, 0, 1, 0, 0, 0, 0, 0, 0, 0, 1, 1]) ∧
    (runSched (initSys [[5000000, 3000000], [7000000]])
      [0, 1, 0, 1, 0, 1, 0, 1, 0, 1, 0, 0, 0, 0, 0, 0, 0, 1, 1]).stati.sendMessageMaxRT =
      maxLatency [[5000000, 3000000], [7000000]] ∧
    maxLatency [[5000000, 3000000], [7000000]] = 7 :=
  ⟨by decide,
   (((sendMessageMaxRT_is_max [[5000000, 3000000], [7000000]]).1
      [0, 1, 0, 1, 0, 1, 0, 1, 0, 1, 0, 0, 0, 0, 0, 0, 0, 1, 1]).2 (by decide)).1,
   by decide⟩

/-- C3: from zeroed counters, under every schedule of the atomic operations,
once every worker has recorded all its sends: `sendRequestSuccessCount` and
`receiveResponseSuccessCount` are both the `int64` of the number `N` of sends
and `sendMessageSuccessTimeTotal` is the `int64` of the sum of the latencies;
so, `N` being an `int64` (below `2^63`), both counts equal `N`, and, the
latencies being non-negative and their sum an `int64`, the total equals
`l1 + ... + lN` and is `>= 0`. Some schedule lets every worker finish. -/
theorem success_counts (ps : List (List Int)) :
    (∀ sched : List Nat, allRecorded (runSched (initSys ps) sched) →
      (runSched (initSys ps) sched).stati.sendRequestSuccessCount =
        wrap64 (ps.flatten.length : Int) ∧
      (runSched (initSys ps) sched).stati.receiveResponseSuccessCount =
        wrap64 (ps.flatten.length : Int) ∧
      (runSched (initSys ps) sched).stati.sendMessageSuccessTimeTotal =
        wrap64 (latencies ps).sum ∧
      ((ps.flatten.length : Int) < 2 ^ 63 →
        (runSched (initSys ps) sched).stati.sendRequestSuccessCount =
          (ps.flatten.length : Int) ∧
        (runSched (initSys ps) sched).stati.receiveResponseSuccessCount =
          (ps.flatten.length : Int)) ∧
      ((∀ x ∈ latencies ps, 0 ≤ x) → (latencies ps).sum < 2 ^ 63 →
        (runSched (initSys ps) sched).stati.sendMessageSuccessTimeTotal = (latencies ps).sum ∧
        0 ≤ (runSched (initSys ps) sched).stati.sendMessageSuccessTimeTotal)) ∧
    (∃ sched : List Nat, allRecorded (runSched (initSys ps) sched)) := by
  refine ⟨?_, exists_complete ps⟩
  intro sched hdone
  obtain ⟨hr, hs, ht⟩ := counts_wrapped ps sched hdone
  have hlen : (0 : Int) ≤ (ps.flatten.length : Int) := Int.natCast_nonneg _
  refine ⟨hs, hr, ht, ?_, ?_⟩
  · intro hN
    rw [wrap64_of_range _ (by omega) hN] at hr hs
    exact ⟨hs, hr⟩
  · intro hnn hS
    have hsum : 0 ≤ (latencies ps).sum := List.sum_nonneg hnn
    rw [wrap64_of_range _ (by omega) hS] at ht
    exact ⟨ht, by rw [ht]; exact hsum⟩

set_option maxRecDepth 50000

/-- C3 on three workers that each record the latencies 10 ms, 20 ms, ...,
1000 ms: under every schedule that lets them finish the counts are 300 and the
total is 151500, and such a schedule exists. -/
theorem success_counts_witness :
    (∀ sched : List Nat, allRecorded (runSched (initSys threeWorkers) sched) →
      (runSched (initSys threeWorkers) sched).stati.sendRequestSuccessCount = 300 ∧
      (runSched (initSys threeWorkers) sched).stati.receiveResponseSuccessCount = 300 ∧
      (runSched (initSys threeWorkers) sched).stati.sendMessageSuccessTimeTotal = 151500 ∧
      0 ≤ (runSched (initSys threeWorkers) sched).stati.sendMessageSuccessTimeTotal) ∧
    (∃ sched : List Nat, allRecorded (runSched (initSys threeWorkers) sched)) := by
  have h := success_counts threeWorkers
  have hlen : ((threeWorkers.flatten.length : Nat) : Int) = 300 := by decide
  have hsum : (latencies threeWorkers).sum = 151500 := by decide
  refine ⟨fun sched hd => ?_, h.2⟩
  obtain ⟨_, _, _, hc, ht⟩ := h.1 sched hd
  have hc2 := hc (by decide)
  have ht2 := ht (by decide) (by decide)
  rw [hlen] at hc2
  rw [hsum] at ht2
  exact ⟨hc2.1, hc2.2, ht2.1, ht2.2⟩

end Benchmark

namespace OrderProducer

set_option maxRecDepth 20000

open Benchmark (wrap64 wrap64_of_range sum_map_set)

theorem sum_inBody_nonneg (l : List Pc) : 0 ≤ (l.map inBody).sum := by
  apply List.sum_nonneg
  intro x hx
  obtain ⟨p, _, hp⟩ := List.mem_map.mp hx
  subst hp
  cases p <;> simp [inBody]

theorem sum_hasExited_nonneg (l : List Pc) : 0 ≤ (l.map hasExited).sum := by
  apply List.sum_nonneg
  intro x hx
  obtain ⟨p, _, hp⟩ := List.mem_map.mp hx
  subst hp
  cases p <;> simp [hasExited]

theorem sum_hasExited_le (l : List Pc) : (l.map hasExited).sum ≤ (l.length : Int) := by
  induction l with
  | nil => simp
  | cons p l ih =>
    simp only [List.map_cons, List.sum_cons, List.length_cons]
    have : hasExited p ≤ 1 := by cases p <;> simp [hasExited]
    push_cast
    omega

theorem get_lt_length (l : List Pc) (i : Nat) (p : Pc) (h : l[i]? = some p) : i < l.length := by
  by_contra hc
  rw [List.getElem?_eq_none (by omega)] at h
  cases h

theorem stepAt_drainInv (M : Int) (W : Nat) (hM : M < 2 ^ 63) (hW : (W : Int) < 2 ^ 63)
    (σ : Sys) (i : Nat) (h : DrainInv M W σ) : DrainInv M W (stepAt σ i) := by
  obtain ⟨hlen, hvals, hpend, hcnt⟩ := h
  have hS := sum_inBody_nonneg σ.workers
  have hD := sum_hasExited_nonneg σ.workers
  cases hw : σ.workers[i]? with
  | none =>
    simp only [stepAt, hw]
    exact ⟨hlen, hvals, hpend, hcnt⟩
  | some p =>
    have hmem : p ∈ σ.workers := List.mem_iff_getElem?.mpr ⟨i, hw⟩
    cases p with
    | exited =>
      simp only [stepAt, hw]
      exact ⟨hlen, hvals, hpend, hcnt⟩
    | send v =>
      simp only [stepAt, hw]
      have hS2 := sum_map_set inBody σ.workers i (Pc.send v) Pc.loop hw
      have hD2 := sum_map_set hasExited σ.workers i (Pc.send v) Pc.loop hw
      simp only [inBody, hasExited] at hS2 hD2
      constructor
      · simp only [List.length_set]; exact hlen
      · intro q hq
        simp only [] at hq
        rcases List.mem_append.mp hq with h1 | h1
        · exact hvals q h1
        · rw [List.mem_singleton.mp h1]
          exact hpend v hmem
      · intro u hu
        simp only [] at hu
        rcases List.mem_or_eq_of_mem_set hu with h1 | h1
        · exact hpend u h1
        · cases h1
      · simp only [List.length_append, List.length_singleton, hS2, hD2]
        push_cast
        rcases hcnt with ⟨a, b, c⟩ | ⟨a, b, c⟩
        · left; exact ⟨a, by omega, by omega⟩
        · right; exact ⟨a, by omega, by omega⟩
    | loop =>
      have hS2 : ∀ q, ((σ.workers.set i q).map inBody).sum =
          (σ.workers.map inBody).sum - inBody Pc.loop + inBody q :=
        fun q => sum_map_set inBody σ.workers i Pc.loop q hw
      have hD2 : ∀ q, ((σ.workers.set i q).map hasExited).sum =
          (σ.workers.map hasExited).sum - hasExited Pc.loop + hasExited q :=
        fun q => sum_map_set hasExited σ.workers i Pc.loop q hw
      have hDle : (σ.workers.map hasExited).sum + 1 ≤ (W : Int) := by
        have h1 := sum_hasExited_le (σ.workers.set i Pc.exited)
        rw [hD2 Pc.exited, List.length_set, hlen] at h1
        simp only [hasExited] at h1
        omega
      have hwrap : wrap64 (σ.leftMsgCount - 1) = σ.leftMsgCount - 1 := by
        apply wrap64_of_range
        · rcases hcnt with ⟨a, _, _⟩ | ⟨_, b, _⟩ <;> omega
        · rcases hcnt with ⟨_, _, c⟩ | ⟨a, _, _⟩ <;> omega
      simp only [stepAt, hw, hwrap]
      by_cases hv : σ.leftMsgCount - 1 ≥ 0
      · rw [if_pos hv]
        constructor
        · simp only [List.length_set]; exact hlen
        · exact hvals
        · intro u hu
          simp only [] at hu
          rcases List.mem_or_eq_of_mem_set hu with h1 | h1
          · exact hpend u h1
          · cases h1; exact hv
        · simp only [hS2, hD2, inBody, hasExited]
          rcases hcnt with ⟨a, b, c⟩ | ⟨a, b, c⟩
          · left; exact ⟨hv, by omega, by omega⟩
          · omega
      · rw [if_neg hv]
        constructor
        · simp only [List.length_set]; exact hlen
        · exact hvals
        · intro u hu
          simp only [] at hu
          rcases List.mem_or_eq_of_mem_set hu with h1 | h1
          · exact hpend u h1
          · cases h1
        · simp only [hS2, hD2, inBody, hasExited]
          right
          rcases hcnt with ⟨a, b, c⟩ | ⟨a, b, c⟩
          · exact ⟨by omega, by omega, by omega⟩
          · exact ⟨by omega, by omega, by omega⟩

theorem runSched_drainInv (M : Int) (W : Nat) (hM : M < 2 ^ 63) (hW : (W : Int) < 2 ^ 63)
    (sched : List Nat) (σ : Sys) (h : DrainInv M W σ) : DrainInv M W (runSched σ sched) := by
  induction sched generalizing σ with
  | nil => exact h
  | cons i rest ih => exact ih (stepAt σ i) (stepAt_drainInv M W hM hW σ i h)

theorem initSys_drainInv (M : Int) (W : Nat) (hM : 0 ≤ M) : DrainInv M W (initSys M W) := by
  have hz : ∀ n : Nat, ((List.replicate n Pc.loop).map hasExited).sum = 0 ∧
      ((List.replicate n Pc.loop).map inBody).sum = 0 := by
    intro n
    induction n with
    | zero => simp
    | succ n ih => simp [List.replicate_succ, hasExited, inBody, ih.1, ih.2]
  constructor
  · simp [initSys]
  · intro p hp; cases hp
  · intro v hv
    simp only [initSys] at hv
    cases List.eq_of_mem_replicate hv
  · left
    simp only [initSys, List.length_nil, (hz W).1, (hz W).2]
    exact ⟨hM, trivial, by simp⟩

theorem stepAt_movesLeft (M : Int) (W : Nat) (hM : M < 2 ^ 63) (hW : (W : Int) < 2 ^ 63)
    (σ : Sys) (i : Nat) (p : Pc) (h : DrainInv M W σ) (hw : σ.workers[i]? = some p)
    (hp : p ≠ Pc.exited) : movesLeft (stepAt σ i) = movesLeft σ - 1 := by
  obtain ⟨hlen, hvals, hpend, hcnt⟩ := h
  have hS := sum_inBody_nonneg σ.workers
  have hD := sum_hasExited_nonneg σ.workers
  cases p with
  | exited => exact absurd rfl hp
  | send v =>
    simp only [stepAt, hw, movesLeft, List.length_set]
    rw [sum_map_set inBody σ.workers i (Pc.send v) Pc.loop hw,
      sum_map_set hasExited σ.workers i (Pc.send v) Pc.loop hw]
    simp only [inBody, hasExited]
    omega
  | loop =>
    have hDle : (σ.workers.map hasExited).sum + 1 ≤ (W : Int) := by
      have h1 := sum_hasExited_le (σ.workers.set i Pc.exited)
      rw [sum_map_set hasExited σ.workers i Pc.loop Pc.exited hw, List.length_set, hlen] at h1
      simp only [hasExited] at h1
      omega
    have hwrap : wrap64 (σ.leftMsgCount - 1) = σ.leftMsgCount - 1 := by
      apply wrap64_of_range
      · rcases hcnt with ⟨a, _, _⟩ | ⟨_, b, _⟩ <;> omega
      · rcases hcnt with ⟨_, _, c⟩ | ⟨a, _, _⟩ <;> omega
    simp only [stepAt, hw, hwrap]
    by_cases hv : σ.leftMsgCount - 1 ≥ 0
    · rw [if_pos hv]
      simp only [movesLeft, List.length_set]
      rw [sum_map_set inBody σ.workers i Pc.loop _ hw,
        sum_map_set hasExited σ.workers i Pc.loop _ hw]
      simp only [inBody, hasExited]
      rw [max_eq_left hv, max_eq_left (by omega : (0 : Int) ≤ σ.leftMsgCount)]
      omega
    · rw [if_neg hv]
      simp only [movesLeft, List.length_set]
      rw [sum_map_set inBody σ.workers i Pc.loop _ hw,
        sum_map_set hasExited σ.workers i Pc.loop _ hw]
      simp only [inBody, hasExited]
      rw [max_eq_right (by omega : σ.leftMsgCount - 1 ≤ 0),
        max_eq_right (by omega : σ.leftMsgCount ≤ 0)]
      omega

theorem movesLeft_nonneg (σ : Sys) : 0 ≤ movesLeft σ := by
  have hS := sum_inBody_nonneg σ.workers
  have hD := sum_hasExited_le σ.workers
  have hmax : (0 : Int) ≤ max σ.leftMsgCount 0 := le_max_right _ _
  unfold movesLeft
  omega

theorem order_runSched_append (σ : Sys) (s1 s2 : List Nat) :
    runSched σ (s1 ++ s2) = runSched (runSched σ s1) s2 := by
  simp [runSched, List.foldl_append]

theorem exists_drain_aux (M : Int) (W : Nat) (hM : M < 2 ^ 63) (hW : (W : Int) < 2 ^ 63)
    (n : Nat) (σ : Sys) (h : DrainInv M W σ) (hn : movesLeft σ ≤ (n : Int)) :
    ∃ sched, allExited (runSched σ sched) := by
  induction n generalizing σ with
  | zero =>
    refine ⟨[], ?_⟩
    intro p hp
    by_contra hne
    obtain ⟨i, hi⟩ := List.mem_iff_getElem?.mp hp
    have h1 := stepAt_movesLeft M W hM hW σ i p h hi hne
    have h2 := movesLeft_nonneg (stepAt σ i)
    simp only [Nat.cast_zero] at hn
    omega
  | succ n ih =>
    by_cases hdone : allExited σ
    · exact ⟨[], hdone⟩
    · unfold allExited at hdone
      push_neg at hdone
      obtain ⟨p, hp, hne⟩ := hdone
      obtain ⟨i, hi⟩ := List.mem_iff_getElem?.mp hp
      have h1 := stepAt_movesLeft M W hM hW σ i p h hi hne
      have hinv := stepAt_drainInv M W hM hW σ i h
      obtain ⟨sched, hs⟩ := ih (stepAt σ i) hinv (by push_cast at hn; omega)
      exact ⟨i :: sched, hs⟩

theorem enabledSched_movesLeft (M : Int) (W : Nat) (hM : M < 2 ^ 63) (hW : (W : Int) < 2 ^ 63)
    (sched : List Nat) (σ : Sys) (h : DrainInv M W σ) (he : enabledSched σ sched) :
    movesLeft (runSched σ sched) = movesLeft σ - (sched.length : Int) := by
  induction sched generalizing σ with
  | nil => simp [runSched]
  | cons i rest ih =>
    obtain ⟨⟨p, hp, hne⟩, hrest⟩ := he
    have h1 := stepAt_movesLeft M W hM hW σ i p h hp hne
    have h2 := ih (stepAt σ i) (stepAt_drainInv M W hM hW σ i h) hrest
    have e : runSched σ (i :: rest) = runSched (stepAt σ i) rest := rfl
    rw [e, h2, h1]
    simp only [List.length_cons]
    push_cast
    ring

theorem allExited_of_sum (l : List Pc) (h : (l.map hasExited).sum = (l.length : Int)) :
    ∀ p ∈ l, p = Pc.exited := by
  induction l with
  | nil => intro p hp; cases hp
  | cons q l ih =>
    simp only [List.map_cons, List.sum_cons, List.length_cons] at h
    push_cast at h
    have h1 := sum_hasExited_le l
    have hq : hasExited q ≤ 1 := by cases q <;> simp [hasExited]
    intro p hp
    rcases List.mem_cons.mp hp with e | e
    · subst e
      cases p with
      | exited => rfl
      | loop => simp only [hasExited] at h; omega
      | send v => simp only [hasExited] at h; omega
    · exact ih (by omega) p e

theorem allExited_of_movesLeft (σ : Sys) (h : movesLeft σ = 0) : allExited σ := by
  have hS := sum_inBody_nonneg σ.workers
  have hD := sum_hasExited_le σ.workers
  have hmax : (0 : Int) ≤ max σ.leftMsgCount 0 := le_max_right _ _
  unfold movesLeft at h
  exact allExited_of_sum σ.workers (by omega)

theorem movesLeft_initSys (M : Int) (W : Nat) (hM : 0 ≤ M) :
    movesLeft (initSys M W) = 2 * M + (W : Int) := by
  have h := initSys_drainInv M W hM
  have hlen := h.len
  rcases h.cnt with ⟨a, b, c⟩ | ⟨a, b, c⟩
  · have hc : (initSys M W).leftMsgCount = M := rfl
    have hs : ((initSys M W).sent.length : Int) = 0 := rfl
    unfold movesLeft
    rw [hlen, b, max_eq_left a]
    omega
  · have hc : (initSys M W).leftMsgCount = M := rfl
    omega

/-- C4: with a message count `0 < M < 2^63` and `1 <= W < 2^63` workers that
share one countdown initialised to `M`, under every schedule of the atomic
decrements: every send was issued for a decrement that returned a value
`>= 0`, at no time have more than `M` sends been issued, and once every worker
has left its loop exactly `M` sends have been issued; and some schedule does
let every worker leave its loop; indeed a schedule that only moves workers
still in their loop has at most `2 * M + W` moves, and when it has that many
every worker has left its loop. -/
theorem ordered_total_sends (M : Int) (W : Nat) (hM0 : 0 < M) (hM : M < 2 ^ 63)
    (hW1 : 1 ≤ W) (hW : (W : Int) < 2 ^ 63) :
    (∀ sched : List Nat,
      (∀ p ∈ (runSched (initSys M W) sched).sent, 0 ≤ p.2) ∧
      ((runSched (initSys M W) sched).sent.length : Int) ≤ M ∧
      (allExited (runSched (initSys M W) sched) →
        ((runSched (initSys M W) sched).sent.length : Int) = M)) ∧
    (∃ sched : List Nat, allExited (runSched (initSys M W) sched)) ∧
    (∀ sched : List Nat, enabledSched (initSys M W) sched →
      (sched.length : Int) ≤ 2 * M + (W : Int) ∧
      ((sched.length : Int) = 2 * M + (W : Int) →
        allExited (runSched (initSys M W) sched))) := by
  have h0 := initSys_drainInv M W (le_of_lt hM0)
  refine ⟨?_, ?_, ?_⟩
  rotate_left 2
  · intro sched he
    have h1 := enabledSched_movesLeft M W hM hW sched (initSys M W) h0 he
    rw [movesLeft_initSys M W (le_of_lt hM0)] at h1
    have h2 := movesLeft_nonneg (runSched (initSys M W) sched)
    refine ⟨by omega, fun hl => allExited_of_movesLeft _ (by omega)⟩
  · intro sched
    have h := runSched_drainInv M W hM hW sched (initSys M W) h0
    have hS := sum_inBody_nonneg (runSched (initSys M W) sched).workers
    refine ⟨h.vals, ?_, ?_⟩
    · rcases h.cnt with ⟨a, b, c⟩ | ⟨a, b, c⟩ <;> omega
    · intro hdone
      have hS0 : ((runSched (initSys M W) sched).workers.map inBody).sum = 0 := by
        apply List.sum_eq_zero
        intro x hx
        obtain ⟨p, hp, hpx⟩ := List.mem_map.mp hx
        rw [hdone p hp] at hpx
        exact hpx.symm
      have hD1 : ((runSched (initSys M W) sched).workers.map hasExited).sum = (W : Int) := by
        have hall : ∀ l : List Pc, (∀ p ∈ l, p = Pc.exited) →
            (l.map hasExited).sum = (l.length : Int) := by
          intro l
          induction l with
          | nil => intro _; rfl
          | cons q l ih =>
            intro hq
            simp only [List.map_cons, List.sum_cons, List.length_cons]
            rw [hq q (List.mem_cons_self _ _), ih (fun p hp => hq p (List.mem_cons_of_mem _ hp))]
            simp only [hasExited]
            push_cast
            ring
        rw [hall _ hdone, h.len]
      rcases h.cnt with ⟨a, b, c⟩ | ⟨a, b, c⟩
      · have : (1 : Int) ≤ (W : Int) := by exact_mod_cast hW1
        omega
      · omega
  · obtain ⟨sched, hs⟩ := exists_drain_aux M W hM hW (movesLeft (initSys M W)).toNat
      (initSys M W) h0 (by rw [Int.toNat_of_nonneg (movesLeft_nonneg _)])
    exact ⟨sched, hs⟩

/-- C4 for a countdown of 5 drained by 3 workers that move in turn (the run
ends, 5 sends were issued, each for a value `>= 0`), and for a countdown of 100
drained by 10 workers (every run that ends has issued 100 sends, and one
does end). -/
theorem ordered_total_sends_witness :
    (allExited (runSched (initSys 5 3) roundRobin) ∧
      ((runSched (initSys 5 3) roundRobin).sent.length : Int) = 5 ∧
      ∀ p ∈ (runSched (initSys 5 3) roundRobin).sent, 0 ≤ p.2) ∧
    (∀ sched : List Nat, allExited (runSched (initSys 100 10) sched) →
      ((runSched (initSys 100 10) sched).sent.length : Int) = 100) ∧
    (∃ sched : List Nat, allExited (runSched (initSys 100 10) sched)) :=
  ⟨⟨by decide,
    ((ordered_total_sends 5 3 (by decide) (by decide) (by decide) (by decide)).1
      roundRobin).2.2 (by decide),
    ((ordered_total_sends 5 3 (by decide) (by decide) (by decide) (by decide)).1
      roundRobin).1⟩,
   fun sched hd =>
    ((ordered_total_sends 100 10 (by decide) (by decide) (by decide) (by decide)).1
      sched).2.2 hd,
   (ordered_total_sends 100 10 (by decide) (by decide) (by decide) (by decide)).2.1⟩

end OrderProducer

namespace Benchmark

theorem run_of_valid (bp : producer) (h : bp.valid) :
    run bp = (List.range bp.instanceCount.toNat).map RunEvent.goProduceMsg ++
      [RunEvent.goTakeSnapshot, RunEvent.goPrintStati] := by
  obtain ⟨h1, h2, h3, h4, h5, h6⟩ := h
  unfold run
  rw [if_neg h1, if_neg h2, if_neg h3, if_neg (by omega), if_neg (by omega), if_neg (by omega)]

theorem run_of_not_valid (bp : producer) (h : ¬ bp.valid) :
    ∀ e ∈ run bp, e.isTask = false := by
  unfold run
  intro e he
  split at he
  · rcases List.mem_cons.mp he with h1 | h1
    · subst h1; rfl
    · rw [List.mem_singleton.mp h1]; rfl
  split at he
  · rcases List.mem_cons.mp he with h1 | h1
    · subst h1; rfl
    · rw [List.mem_singleton.mp h1]; rfl
  split at he
  · rcases List.mem_cons.mp he with h1 | h1
    · subst h1; rfl
    · rw [List.mem_singleton.mp h1]; rfl
  split at he
  · rcases List.mem_cons.mp he with h1 | h1
    · subst h1; rfl
    · rw [List.mem_singleton.mp h1]; rfl
  split at he
  · rcases List.mem_cons.mp he with h1 | h1
    · subst h1; rfl
    · rw [List.mem_singleton.mp h1]; rfl
  split at he
  · rcases List.mem_cons.mp he with h1 | h1
    · subst h1; rfl
    · rw [List.mem_singleton.mp h1]; rfl
  · exfalso
    apply h
    refine ⟨by assumption, by assumption, by assumption, by omega, by omega, by omega⟩

/-- C7: `producer.run` starts a goroutine if and only if topic, group id and
name-server address are non-empty and instance count, test minutes and body
size are positive; with such a configuration it starts `instanceCount` workers,
then the snapshot task and the report task, and does nothing before; with any
other configuration it starts no goroutine at all. -/
theorem run_starts_iff_valid (bp : producer) :
    ((∃ e ∈ run bp, e.isTask = true) ↔ bp.valid) ∧
    (bp.valid → run bp = (List.range bp.instanceCount.toNat).map RunEvent.goProduceMsg ++
      [RunEvent.goTakeSnapshot, RunEvent.goPrintStati]) ∧
    (¬ bp.valid → ∀ e ∈ run bp, e.isTask = false) := by
  refine ⟨⟨?_, ?_⟩, run_of_valid bp, run_of_not_valid bp⟩
  · rintro ⟨e, he, ht⟩
    by_contra hv
    rw [run_of_not_valid bp hv e he] at ht
    cases ht
  · intro hv
    rw [run_of_valid bp hv]
    exact ⟨RunEvent.goTakeSnapshot, by simp, rfl⟩

/-- C7 at a configuration with the default numbers: one worker, then the two
periodic tasks. -/
theorem run_starts_iff_valid_witness :
    sampleProducer.valid ∧
    run sampleProducer =
      [RunEvent.goProduceMsg 0, RunEvent.goTakeSnapshot, RunEvent.goPrintStati] :=
  ⟨by unfold producer.valid sampleProducer; decide,
   (run_starts_iff_valid sampleProducer).2.1 (by unfold producer.valid sampleProducer; decide)⟩

/-- C6 at its failing input: when `rocketmq.NewProducer` returned no error, the
`exit` channel is open and a send comes back with a status other than `SendOK`,
`produceMsg` panics on the `nil` error instead of looping, whatever the
counters hold and whatever would follow. -/
theorem produceMsg_failure_panics (stati : statiBenchmarkProducerSnapshot) (e : Int)
    (rest : List Iteration) :
    produceMsg none stati ({ exitClosed := false, sendOK := false, elapsed := e } :: rest) =
      (stati, Outcome.nilDerefPanic) := by
  simp [produceMsg, produceMsgLoop]

end Benchmark

namespace OrderProducer

/-- C8 at its failing inputs: with every string set, `main` gets past its
validation for a message count of `-1`, creating and starting the producer and
both workers, and for a worker count of `-1`, where it creates and starts the
producer and then panics in `wg.Add`. -/
theorem main_accepts_negative_counts :
    pastValidation negativeCount true = true ∧
    main negativeCount true =
      [MainEvent.newProducer, MainEvent.start, MainEvent.goWorker 0, MainEvent.goWorker 1,
        MainEvent.wait, MainEvent.shutdown] ∧
    pastValidation negativeWorkers true = true ∧
    main negativeWorkers true =
      [MainEvent.newProducer, MainEvent.start, MainEvent.negativeWaitGroupPanic,
        MainEvent.shutdown] := by
  refine ⟨?_, ?_, ?_, ?_⟩ <;> decide

end OrderProducer
